import Mathlib

/-!
Shallow embedding of `tbilby/core/prior/TransInterped.py` over the rationals.

The source builds an interpolated prior from sample arrays `xx`, `yy` using
scipy's `interp1d` (piecewise-linear interpolation), `cumtrapz`/`trapz`
(trapezoidal integration) and numpy's `linspace`.  Machine floats are
modelled by `ℚ`, numpy arrays by `List ℚ`, raised exceptions by
`Except`/`Option`.  A value that may be a Python float, int or array is
modelled by `PyVal`.
-/

namespace TBilby

/-- Linear segment evaluation, in the slope form used by
`scipy.interpolate.interp1d._evaluate`. -/
def lerp (x0 y0 x1 y1 t : ℚ) : ℚ :=
  y0 + (y1 - y0) / (x1 - x0) * (t - x0)

/-- Piecewise-linear evaluation over knot points; the leftmost knot is given
separately so the list of remaining knots drives the recursion.  Callers
guarantee the query is at or right of the first knot and at or left of the
last knot. -/
def evalSegs (p : ℚ × ℚ) : List (ℚ × ℚ) → ℚ → ℚ
  | [], _ => p.2
  | q :: rest, t => if t ≤ q.1 then lerp p.1 p.2 q.1 q.2 t else evalSegs q rest t

/-- Model of `scipy.interpolate.interp1d(..., bounds_error=False)`: knot
points plus the fill values used below/above the knot range. -/
structure Interp where
  pts : List (ℚ × ℚ)
  fillLo : ℚ
  fillHi : ℚ
  deriving DecidableEq

/-- The call `interp1d(x=xs, y=ys, bounds_error=False, fill_value=(lo, hi))`;
a scalar `fill_value=c` corresponds to `lo = hi = c`.  The x/y arrays are
kept as a single knot list (the source always passes equal-length arrays;
scipy rejects unequal lengths). -/
def interp1d (xs ys : List ℚ) (lo hi : ℚ) : Interp :=
  ⟨xs.zip ys, lo, hi⟩

/-- Evaluation of an `interp1d` object: fill value outside the knot range,
linear interpolation inside. -/
def Interp.eval (f : Interp) (t : ℚ) : ℚ :=
  match f.pts with
  | [] => 0
  | p :: rest =>
    if t < p.1 then f.fillLo
    else if (rest.getLastD p).1 < t then f.fillHi
    else evalSegs p rest t

/-- Model of `interp1d(..., bounds_error=True)`: an out-of-range query raises
(`none`). -/
structure InterpRaise where
  pts : List (ℚ × ℚ)
  deriving DecidableEq

/-- The call `interp1d(x=xs, y=ys, bounds_error=True)`. -/
def interp1dRaise (xs ys : List ℚ) : InterpRaise :=
  ⟨xs.zip ys⟩

/-- Evaluation of a `bounds_error=True` interpolant. -/
def InterpRaise.eval (f : InterpRaise) (t : ℚ) : Option ℚ :=
  match f.pts with
  | [] => none
  | p :: rest =>
    if t < p.1 then none
    else if (rest.getLastD p).1 < t then none
    else some (evalSegs p rest t)

/-- `numpy.linspace(a, b, n)` (endpoint=True).  For `n = 1` the division by
`n - 1 = 0` yields `a`, matching numpy's single-point result. -/
def linspace (a b : ℚ) (n : ℕ) : List ℚ :=
  (List.range n).map (fun i : ℕ => a + (b - a) * (i : ℚ) / ((n : ℚ) - 1))

/-- `numpy.trapz(ys, xs)`: trapezoidal integral of `ys` over `xs`. -/
def trapz : List ℚ → List ℚ → ℚ
  | y0 :: y1 :: ys, x0 :: x1 :: xs =>
    (x1 - x0) * (y0 + y1) / 2 + trapz (y1 :: ys) (x1 :: xs)
  | _, _ => 0

/-- Running cumulative trapezoid sums starting from `acc` (helper for
`cumtrapz`). -/
def cumtrapzFrom : ℚ → List ℚ → List ℚ → List ℚ
  | acc, y0 :: y1 :: ys, x0 :: x1 :: xs =>
    (acc + (x1 - x0) * (y0 + y1) / 2) ::
      cumtrapzFrom (acc + (x1 - x0) * (y0 + y1) / 2) (y1 :: ys) (x1 :: xs)
  | _, _, _ => []

/-- `scipy.integrate.cumtrapz(ys, xs, initial=0)`: cumulative trapezoidal
integral, with a leading 0 so the output has the length of the input. -/
def cumtrapz (ys xs : List ℚ) : List ℚ :=
  0 :: cumtrapzFrom 0 ys xs

/-- The in-place update `l[-1] = v` on a numpy array. -/
def setLast : List ℚ → ℚ → List ℚ
  | [], _ => []
  | [_], v => [v]
  | x :: y :: l, v => x :: setLast (y :: l) v

/-- Python's builtin `min` over a nonempty sequence (the source never calls
it on an empty one). -/
def pyMin : List ℚ → ℚ
  | [] => 0
  | x :: xs => xs.foldl min x

/-- Python's builtin `max` over a nonempty sequence. -/
def pyMax : List ℚ → ℚ
  | [] => 0
  | x :: xs => xs.foldl max x

/-- A Python value that may be a float scalar, an int scalar, or a 1-D
numeric array; the bound setters branch on `isinstance(·, float)`. -/
inductive PyVal where
  | float (q : ℚ)
  | int (n : ℤ)
  | arr (qs : List ℚ)
  deriving DecidableEq

/-- Exceptions the modelled code can raise. -/
inductive PyErr where
  | valueError
  | typeError
  deriving DecidableEq

/-- State of a `TransInterped` object.  Interpolants are stored as the knot
data of the corresponding `interp1d` objects.  Fields keep the source's
names (`_yy`, `_minimum`, `_maximum` are the private attributes behind the
`yy`/`minimum`/`maximum` properties). -/
structure TransInterped where
  xx : List ℚ
  min_limit : ℚ
  max_limit : ℚ
  _yy : List ℚ
  all_interpolated : Interp
  trans_min : ℚ
  trans_max : ℚ
  _minimum : PyVal
  _maximum : PyVal
  init_once : Bool
  YYnotNorm : List ℚ
  Normalizer_calc : Interp
  Inv_Normalizer_calc : Interp
  YY : List ℚ
  probability_density : Interp
  cumulative_distribution : Interp
  inverse_cumulative_distribution : InterpRaise
  deriving DecidableEq

/-- `TransInterped._initialize_attributes`: builds the unnormalized
cumulative pair, normalizes `_yy` in place, builds the normalized
density/CDF/inverse-CDF, and sets the one-shot guard.  A no-op once
`init_once` is set.  (The source's "not normalised" print is diagnostic
I/O only and is not modelled.) -/
def TransInterped.initializeAttributes (s : TransInterped) : TransInterped :=
  if s.init_once then s
  else
    let YYnn := cumtrapz s._yy s.xx
    let total := trapz s._yy s.xx
    let yyN := s._yy.map (fun y => y / total)
    let YYf := setLast (cumtrapz yyN s.xx) 1
    { s with
      YYnotNorm := YYnn
      Normalizer_calc := interp1d s.xx YYnn 0 0
      Inv_Normalizer_calc := interp1d YYnn s.xx 0 0
      _yy := yyN
      YY := YYf
      probability_density := interp1d s.xx yyN 0 0
      cumulative_distribution := interp1d s.xx YYf 0 1
      inverse_cumulative_distribution := interp1dRaise YYf s.xx
      init_once := true }

/-- `TransInterped._update_instance`: re-linearizes the grid between the
current bounds and resamples `_yy` from the master interpolant.  The
source reads `self.minimum`/`self.maximum`; callers pass those values
here as the scalars `mn`, `mx` (with array-valued bounds the source would
build a 2-D grid, which no reachable call does). -/
def TransInterped.updateInstanceWith (s : TransInterped) (mn mx : ℚ) : TransInterped :=
  let xx' := linspace mn mx s.xx.length
  let yy' := xx'.map s.all_interpolated.eval
  TransInterped.initializeAttributes { s with xx := xx', _yy := yy' }

/-- The bound `float(np.nanmax(np.array((min(xx), minimum))))` computed in
`__init__`; a caller-omitted bound (`np.nan`) is `none`. -/
def resolvedMin (xx : List ℚ) : Option ℚ → ℚ
  | none => pyMin xx
  | some m => max (pyMin xx) m

/-- The bound `float(np.nanmin(np.array((max(xx), maximum))))` computed in
`__init__`. -/
def resolvedMax (xx : List ℚ) : Option ℚ → ℚ
  | none => pyMax xx
  | some m => min (pyMax xx) m

/-- `TransInterped.__init__`.  Modelled from the spec: the base-class
`bilby.core.prior.Prior.__init__` (external to this repository) raises a
`ValueError` when the resolved minimum exceeds the resolved maximum
(spec §4.1/§7 ConstructionBoundsConflict); it otherwise stores the
resolved bounds through the overridden property setters, whose checks
provably pass here.  Everything else is translated from the source. -/
def mkTransInterped (xx yy : List ℚ) (minimum maximum : Option ℚ) :
    Except PyErr TransInterped :=
  let mn := resolvedMin xx minimum
  let mx := resolvedMax xx maximum
  if mx < mn then .error .valueError
  else
    .ok (TransInterped.updateInstanceWith
      { xx := xx
        min_limit := pyMin xx
        max_limit := pyMax xx
        _yy := yy
        all_interpolated := interp1d xx yy 0 0
        trans_min := mn
        trans_max := mx
        _minimum := PyVal.float mn
        _maximum := PyVal.float mx
        init_once := false
        YYnotNorm := []
        Normalizer_calc := interp1d [] [] 0 0
        Inv_Normalizer_calc := interp1d [] [] 0 0
        YY := []
        probability_density := interp1d [] [] 0 0
        cumulative_distribution := interp1d [] [] 0 0
        inverse_cumulative_distribution := interp1dRaise [] [] }
      mn mx)

/-- `TransInterped.prob`. -/
def TransInterped.prob (s : TransInterped) (val : ℚ) : ℚ :=
  s.probability_density.eval val

/-- `TransInterped.cdf`. -/
def TransInterped.cdf (s : TransInterped) (val : ℚ) : ℚ :=
  s.cumulative_distribution.eval val

/-- `TransInterped.rescale` on a scalar input (the `rescaled.shape == ()`
branch converts the 0-d result to a float; in the model the result is
already a scalar). -/
def TransInterped.rescale (s : TransInterped) (val : ℚ) : ℚ :=
  let y_mins := s.Normalizer_calc.eval s.trans_min
  let y_max := s.Normalizer_calc.eval s.trans_max
  let y_modifiy := y_mins + (y_max - y_mins) * val
  s.Inv_Normalizer_calc.eval y_modifiy

/-- `TransInterped.rescale` on an array input: numpy broadcasts
`y_mins + (y_max - y_mins) * val` and the interpolant elementwise. -/
def TransInterped.rescaleArr (s : TransInterped) (vals : List ℚ) : List ℚ :=
  vals.map s.rescale

/-- The `minimum` property setter.  A Python `int` is not an instance of
`float`, so it falls into the `else` branch where `any(int < limit)`
raises a `TypeError` (a bool is not iterable). -/
def TransInterped.setMinimum (s : TransInterped) (minimum : PyVal) :
    Except PyErr TransInterped :=
  match minimum with
  | .float q =>
    if q < s.min_limit then .error .valueError
    else .ok { s with _minimum := .float q }
  | .int _ => .error .typeError
  | .arr qs =>
    if qs.any (fun q => decide (q < s.min_limit)) then .error .valueError
    else .ok { s with _minimum := .arr qs }

/-- The `maximum` property setter (the array branch's error message
mentions "Minimum" in the source — a copy-paste slip — but the exception
type is the same `ValueError`). -/
def TransInterped.setMaximum (s : TransInterped) (maximum : PyVal) :
    Except PyErr TransInterped :=
  match maximum with
  | .float q =>
    if s.max_limit < q then .error .valueError
    else .ok { s with _maximum := .float q }
  | .int _ => .error .typeError
  | .arr qs =>
    if qs.any (fun q => decide (s.max_limit < q)) then .error .valueError
    else .ok { s with _maximum := .arr qs }

/-- The `yy` property setter: replaces the raw samples, rebuilds the master
interpolant over the current grid, and re-runs `_update_instance`.
`none` marks the unreachable corner where a stored bound is not a scalar
(there `linspace` would build a 2-D grid, outside this model). -/
def TransInterped.setYY (s : TransInterped) (yy : List ℚ) : Option TransInterped :=
  let s' := { s with _yy := yy, all_interpolated := interp1d s.xx yy 0 0 }
  match s._minimum, s._maximum with
  | .float mn, .float mx => some (s'.updateInstanceWith mn mx)
  | _, _ => none

/-- `TransInterped.__eq__`: same concrete type (automatic in the model) and
element-wise equal `xx` and `yy` arrays — note these are the *current*
(post-resampling, post-normalization) arrays. -/
def TransInterped.eq (s other : TransInterped) : Bool :=
  s.xx == other.xx && s._yy == other._yy

/-- A mutation performed on a constructed object through its public
setters. -/
inductive Mutation where
  | setMin (v : PyVal)
  | setMax (v : PyVal)
  | setYY (ys : List ℚ)
  deriving DecidableEq

/-- Apply one mutation; `none` when the setter raises. -/
def TransInterped.applyMutation (s : TransInterped) : Mutation → Option TransInterped
  | .setMin v => (s.setMinimum v).toOption
  | .setMax v => (s.setMaximum v).toOption
  | .setYY ys => s.setYY ys

/-- Apply a sequence of mutations, stopping at the first raised error. -/
def TransInterped.applyMutations (s : TransInterped) : List Mutation → Option TransInterped
  | [] => some s
  | m :: ms =>
    match s.applyMutation m with
    | none => none
    | some s' => s'.applyMutations ms

/-- A stored bound value is at or above `lim` (elementwise for arrays; an
int can never be stored because the setters raise on ints). -/
def PyVal.geQ (v : PyVal) (lim : ℚ) : Prop :=
  match v with
  | .float q => lim ≤ q
  | .int _ => False
  | .arr qs => ∀ q ∈ qs, lim ≤ q

/-- A stored bound value is at or below `lim` (elementwise for arrays). -/
def PyVal.leQ (v : PyVal) (lim : ℚ) : Prop :=
  match v with
  | .float q => q ≤ lim
  | .int _ => False
  | .arr qs => ∀ q ∈ qs, q ≤ lim

instance (v : PyVal) (lim : ℚ) : Decidable (v.geQ lim) := by
  unfold PyVal.geQ; cases v <;> infer_instance

instance (v : PyVal) (lim : ℚ) : Decidable (v.leQ lim) := by
  unfold PyVal.leQ; cases v <;> infer_instance

/-- The full bound chain `min_limit ≤ minimum ≤ maximum ≤ max_limit`, for
scalar-valued stored bounds. -/
def TransInterped.boundChain (s : TransInterped) : Prop :=
  match s._minimum, s._maximum with
  | .float mn, .float mx => s.min_limit ≤ mn ∧ mn ≤ mx ∧ mx ≤ s.max_limit
  | _, _ => False

instance (s : TransInterped) : Decidable s.boundChain := by
  unfold TransInterped.boundChain
  cases h1 : s._minimum <;> cases h2 : s._maximum <;> infer_instance

/-- A decision procedure for `List.Chain'` that reduces in the kernel
(Mathlib's instance is built by tactics and gets stuck under `decide`). -/
def decideChain' (r : ℚ → ℚ → Prop) [DecidableRel r] :
    ∀ l : List ℚ, Decidable (List.Chain' r l)
  | [] => isTrue List.chain'_nil
  | [a] => isTrue (List.chain'_singleton a)
  | a :: b :: l =>
    haveI := decideChain' r (b :: l)
    decidable_of_iff (r a b ∧ List.Chain' r (b :: l)) List.chain'_cons.symm

instance (priority := 5000) (r : ℚ → ℚ → Prop) [DecidableRel r]
    (l : List ℚ) : Decidable (List.Chain' r l) := decideChain' r l

/-- The valid-input precondition the spec places on construction (§4.1, §6):
at least two strictly increasing sample points, matching array lengths,
and a strictly positive supplied density. -/
def validInput (xx yy : List ℚ) : Prop :=
  2 ≤ xx.length ∧ xx.length = yy.length ∧
    List.Chain' (· < ·) xx ∧ ∀ y ∈ yy, 0 < y

instance (xx yy : List ℚ) : Decidable (validInput xx yy) :=
  inferInstanceAs (Decidable (2 ≤ xx.length ∧ xx.length = yy.length ∧
    List.Chain' (· < ·) xx ∧ ∀ y ∈ yy, 0 < y))

/-- A default (never-used) state, for total extraction from `Except`. -/
def emptyState : TransInterped :=
  { xx := []
    min_limit := 0
    max_limit := 0
    _yy := []
    all_interpolated := interp1d [] [] 0 0
    trans_min := 0
    trans_max := 0
    _minimum := PyVal.float 0
    _maximum := PyVal.float 0
    init_once := false
    YYnotNorm := []
    Normalizer_calc := interp1d [] [] 0 0
    Inv_Normalizer_calc := interp1d [] [] 0 0
    YY := []
    probability_density := interp1d [] [] 0 0
    cumulative_distribution := interp1d [] [] 0 0
    inverse_cumulative_distribution := interp1dRaise [] [] }

instance : Inhabited TransInterped := ⟨emptyState⟩

/-- The spec's concrete scenario (§8): `xx = [0,1,2,3,4]`,
`yy = [1,1,1,1,1]`, no caller bounds. -/
def exState : TransInterped :=
  (mkTransInterped [0, 1, 2, 3, 4] [1, 1, 1, 1, 1] none none).toOption.getD emptyState

/-- The same raw arrays constructed with a caller minimum of 1. -/
def exStateMin1 : TransInterped :=
  (mkTransInterped [0, 1, 2, 3, 4] [1, 1, 1, 1, 1] (some 1) none).toOption.getD emptyState

/-! ### Lemmas about `lerp` -/

theorem lerp_at_left (x0 y0 x1 y1 : ℚ) : lerp x0 y0 x1 y1 x0 = y0 := by
  simp [lerp]

theorem lerp_at_right {x0 x1 : ℚ} (h : x0 < x1) (y0 y1 : ℚ) :
    lerp x0 y0 x1 y1 x1 = y1 := by
  have hne : x1 - x0 ≠ 0 := sub_ne_zero.mpr (ne_of_gt h)
  unfold lerp
  field_simp

theorem lerp_mono {x0 x1 y0 y1 a b : ℚ} (h : x0 < x1) (hy : y0 ≤ y1)
    (hab : a ≤ b) : lerp x0 y0 x1 y1 a ≤ lerp x0 y0 x1 y1 b := by
  have hs : 0 ≤ (y1 - y0) / (x1 - x0) :=
    div_nonneg (by linarith) (by linarith)
  unfold lerp
  have := mul_le_mul_of_nonneg_left (show a - x0 ≤ b - x0 by linarith) hs
  linarith

theorem lerp_lower {x0 x1 y0 y1 t : ℚ} (h : x0 < x1) (hy : y0 ≤ y1)
    (ht : x0 ≤ t) : y0 ≤ lerp x0 y0 x1 y1 t := by
  have := lerp_mono h hy ht
  rwa [lerp_at_left] at this

theorem lerp_upper {x0 x1 y0 y1 t : ℚ} (h : x0 < x1) (hy : y0 ≤ y1)
    (ht : t ≤ x1) : lerp x0 y0 x1 y1 t ≤ y1 := by
  have := lerp_mono h hy ht
  rwa [lerp_at_right h] at this

theorem lerp_eq_combo {x0 x1 : ℚ} (h : x0 ≠ x1) (y0 y1 t : ℚ) :
    lerp x0 y0 x1 y1 t = ((x1 - t) * y0 + (t - x0) * y1) / (x1 - x0) := by
  have hne : x1 - x0 ≠ 0 := sub_ne_zero.mpr (Ne.symm h)
  unfold lerp
  field_simp
  ring

theorem lerp_pos {x0 x1 y0 y1 t : ℚ} (h : x0 < x1) (h0 : 0 < y0) (h1 : 0 < y1)
    (ht0 : x0 ≤ t) (ht1 : t ≤ x1) : 0 < lerp x0 y0 x1 y1 t := by
  rw [lerp_eq_combo (ne_of_lt h)]
  apply div_pos _ (by linarith)
  rcases eq_or_lt_of_le ht0 with heq | hlt
  · rw [← heq]
    have : 0 < (x1 - x0) * y0 := mul_pos (by linarith) h0
    nlinarith
  · have h1' : 0 < (t - x0) * y1 := mul_pos (by linarith) h1
    have h0' : 0 ≤ (x1 - t) * y0 := mul_nonneg (by linarith) (le_of_lt h0)
    linarith

/-! ### Chain helpers on knot lists -/

/-- Strictly increasing x-coordinates of a knot list. -/
def FstLt (p q : ℚ × ℚ) : Prop := p.1 < q.1

/-- Non-decreasing y-coordinates of a knot list. -/
def SndLe (p q : ℚ × ℚ) : Prop := p.2 ≤ q.2

theorem chainFst_lt_getLastD {q : ℚ × ℚ} {rest : List (ℚ × ℚ)}
    (hch : List.Chain' FstLt (q :: rest)) (hne : rest ≠ []) :
    q.1 < (rest.getLastD q).1 := by
  induction rest generalizing q with
  | nil => exact absurd rfl hne
  | cons r rest' ih =>
    have hqr : q.1 < r.1 := (List.chain'_cons.mp hch).1
    have htail : List.Chain' FstLt (r :: rest') := (List.chain'_cons.mp hch).2
    rw [List.getLastD_cons]
    cases rest' with
    | nil => simpa using hqr
    | cons r2 rest'' =>
      exact lt_trans hqr (ih htail (by simp))

theorem chainFst_le_getLastD {q : ℚ × ℚ} {rest : List (ℚ × ℚ)}
    (hch : List.Chain' FstLt (q :: rest)) :
    q.1 ≤ (rest.getLastD q).1 := by
  cases rest with
  | nil => simp
  | cons r rest' => exact le_of_lt (chainFst_lt_getLastD hch (by simp))

theorem chainSnd_le_getLastD {q : ℚ × ℚ} {rest : List (ℚ × ℚ)}
    (hch : List.Chain' SndLe (q :: rest)) :
    q.2 ≤ (rest.getLastD q).2 := by
  induction rest generalizing q with
  | nil => simp
  | cons r rest' ih =>
    have hqr : q.2 ≤ r.2 := (List.chain'_cons.mp hch).1
    have htail : List.Chain' SndLe (r :: rest') := (List.chain'_cons.mp hch).2
    rw [List.getLastD_cons]
    exact le_trans hqr (ih htail)

/-! ### Lemmas about `evalSegs` -/

theorem evalSegs_at_head {p : ℚ × ℚ} {rest : List (ℚ × ℚ)}
    (hch : List.Chain' FstLt (p :: rest)) : evalSegs p rest p.1 = p.2 := by
  cases rest with
  | nil => simp [evalSegs]
  | cons q rest' =>
    have hpq : FstLt p q := (List.chain'_cons.mp hch).1
    simp only [evalSegs, if_pos (le_of_lt hpq)]
    exact lerp_at_left _ _ _ _

theorem evalSegs_at_last {p : ℚ × ℚ} {rest : List (ℚ × ℚ)}
    (hch : List.Chain' FstLt (p :: rest)) :
    evalSegs p rest ((rest.getLastD p).1) = (rest.getLastD p).2 := by
  induction rest generalizing p with
  | nil => simp [evalSegs]
  | cons q rest' ih =>
    have hpq : FstLt p q := (List.chain'_cons.mp hch).1
    have htail : List.Chain' FstLt (q :: rest') := (List.chain'_cons.mp hch).2
    rw [List.getLastD_cons]
    cases rest' with
    | nil =>
      simp only [List.getLastD, evalSegs, if_pos (le_refl q.1)]
      exact lerp_at_right hpq _ _
    | cons r rest'' =>
      have hql : q.1 < (((r :: rest'')).getLastD q).1 :=
        chainFst_lt_getLastD htail (by simp)
      simp only [evalSegs, if_neg (not_le.mpr hql)]
      exact ih htail

theorem evalSegs_bounds {p : ℚ × ℚ} {rest : List (ℚ × ℚ)} {t : ℚ}
    (hch : List.Chain' FstLt (p :: rest)) (hcs : List.Chain' SndLe (p :: rest))
    (ht0 : p.1 ≤ t) (ht1 : t ≤ (rest.getLastD p).1) :
    p.2 ≤ evalSegs p rest t ∧ evalSegs p rest t ≤ (rest.getLastD p).2 := by
  induction rest generalizing p with
  | nil => simp [evalSegs]
  | cons q rest' ih =>
    have hpq : FstLt p q := (List.chain'_cons.mp hch).1
    have hyq : SndLe p q := (List.chain'_cons.mp hcs).1
    have htf : List.Chain' FstLt (q :: rest') := (List.chain'_cons.mp hch).2
    have hts : List.Chain' SndLe (q :: rest') := (List.chain'_cons.mp hcs).2
    rw [List.getLastD_cons] at ht1 ⊢
    by_cases htq : t ≤ q.1
    · simp only [evalSegs, if_pos htq]
      constructor
      · exact lerp_lower hpq hyq ht0
      · exact le_trans (lerp_upper hpq hyq htq) (chainSnd_le_getLastD hts)
    · simp only [evalSegs, if_neg htq]
      have hqt : q.1 ≤ t := le_of_lt (not_le.mp htq)
      obtain ⟨hlo, hhi⟩ := ih htf hts hqt ht1
      exact ⟨le_trans hyq hlo, hhi⟩

theorem evalSegs_mono {p : ℚ × ℚ} {rest : List (ℚ × ℚ)} {a b : ℚ}
    (hch : List.Chain' FstLt (p :: rest)) (hcs : List.Chain' SndLe (p :: rest))
    (ha : p.1 ≤ a) (hab : a ≤ b) (hb : b ≤ (rest.getLastD p).1) :
    evalSegs p rest a ≤ evalSegs p rest b := by
  induction rest generalizing p with
  | nil => simp [evalSegs]
  | cons q rest' ih =>
    have hpq : FstLt p q := (List.chain'_cons.mp hch).1
    have hyq : SndLe p q := (List.chain'_cons.mp hcs).1
    have htf : List.Chain' FstLt (q :: rest') := (List.chain'_cons.mp hch).2
    have hts : List.Chain' SndLe (q :: rest') := (List.chain'_cons.mp hcs).2
    rw [List.getLastD_cons] at hb
    by_cases hbq : b ≤ q.1
    · have haq : a ≤ q.1 := le_trans hab hbq
      simp only [evalSegs, if_pos hbq, if_pos haq]
      exact lerp_mono hpq hyq hab
    · have hqb : q.1 ≤ b := le_of_lt (not_le.mp hbq)
      have hlo : q.2 ≤ evalSegs q rest' b := (evalSegs_bounds htf hts hqb hb).1
      by_cases haq : a ≤ q.1
      · simp only [evalSegs, if_pos haq, if_neg hbq]
        exact le_trans (lerp_upper hpq hyq haq) hlo
      · have hqa : q.1 ≤ a := le_of_lt (not_le.mp haq)
        simp only [evalSegs, if_neg haq, if_neg hbq]
        exact ih htf hts hqa hb

theorem evalSegs_pos {p : ℚ × ℚ} {rest : List (ℚ × ℚ)} {t : ℚ}
    (hch : List.Chain' FstLt (p :: rest))
    (hpos : ∀ r ∈ p :: rest, 0 < r.2)
    (ht0 : p.1 ≤ t) (ht1 : t ≤ (rest.getLastD p).1) :
    0 < evalSegs p rest t := by
  induction rest generalizing p with
  | nil => simpa [evalSegs] using hpos p (by simp)
  | cons q rest' ih =>
    have hpq : FstLt p q := (List.chain'_cons.mp hch).1
    have htf : List.Chain' FstLt (q :: rest') := (List.chain'_cons.mp hch).2
    rw [List.getLastD_cons] at ht1
    by_cases htq : t ≤ q.1
    · simp only [evalSegs, if_pos htq]
      exact lerp_pos hpq (hpos p (by simp)) (hpos q (by simp)) ht0 htq
    · simp only [evalSegs, if_neg htq]
      exact ih htf (fun r hr => hpos r (List.mem_cons_of_mem p hr))
        (le_of_lt (not_le.mp htq)) ht1

/-! ### Zip lemmas -/

theorem chain'_zip_fst {r : ℚ → ℚ → Prop} :
    ∀ (xs ys : List ℚ), List.Chain' r xs →
      List.Chain' (fun p q : ℚ × ℚ => r p.1 q.1) (xs.zip ys)
  | [], _, _ => by simp
  | _ :: _, [], _ => by simp
  | x :: xs', y :: ys', h => by
    rw [List.zip_cons_cons, List.chain'_cons']
    refine ⟨?_, chain'_zip_fst xs' ys' h.tail⟩
    intro p hp
    cases xs' with
    | nil => simp at hp
    | cons a xs'' =>
      cases ys' with
      | nil => simp at hp
      | cons b ys'' =>
        rw [List.zip_cons_cons] at hp
        simp only [List.head?_cons, Option.mem_def, Option.some.injEq] at hp
        rw [← hp]
        exact (List.chain'_cons.mp h).1

theorem chain'_zip_snd {r : ℚ → ℚ → Prop} :
    ∀ (xs ys : List ℚ), List.Chain' r ys →
      List.Chain' (fun p q : ℚ × ℚ => r p.2 q.2) (xs.zip ys)
  | [], _, _ => by simp
  | _ :: _, [], _ => by simp
  | x :: xs', y :: ys', h => by
    rw [List.zip_cons_cons, List.chain'_cons']
    refine ⟨?_, chain'_zip_snd xs' ys' h.tail⟩
    intro p hp
    cases xs' with
    | nil => simp at hp
    | cons a xs'' =>
      cases ys' with
      | nil => simp at hp
      | cons b ys'' =>
        rw [List.zip_cons_cons] at hp
        simp only [List.head?_cons, Option.mem_def, Option.some.injEq] at hp
        rw [← hp]
        exact (List.chain'_cons.mp h).1

theorem zip_getLastD :
    ∀ (xs ys : List ℚ), xs.length = ys.length → ∀ (d1 d2 : ℚ),
      (xs.zip ys).getLastD (d1, d2) = (xs.getLastD d1, ys.getLastD d2)
  | [], [], _, _, _ => by simp
  | [], _ :: _, h, _, _ => by simp at h
  | _ :: _, [], h, _, _ => by simp at h
  | x :: xs', y :: ys', h, d1, d2 => by
    rw [List.zip_cons_cons, List.getLastD_cons, List.getLastD_cons,
      List.getLastD_cons]
    exact zip_getLastD xs' ys' (by simpa using h) x y

/-! ### `linspace` lemmas -/

theorem linspace_length (a b : ℚ) (n : ℕ) : (linspace a b n).length = n := by
  simp [linspace]

theorem linspace_ne_nil (a b : ℚ) {n : ℕ} (hn : 1 ≤ n) :
    linspace a b n ≠ [] := by
  intro h
  have := linspace_length a b n
  rw [h] at this
  simp at this
  omega

theorem linspace_headD {n : ℕ} (hn : 1 ≤ n) (a b d : ℚ) :
    (linspace a b n).headD d = a := by
  obtain ⟨m, rfl⟩ : ∃ m, n = m + 1 := ⟨n - 1, by omega⟩
  rw [linspace, List.range_succ_eq_map]
  simp

theorem linspace_getLastD {n : ℕ} (hn : 2 ≤ n) (a b d : ℚ) :
    (linspace a b n).getLastD d = b := by
  obtain ⟨m, rfl⟩ : ∃ m, n = m + 1 := ⟨n - 1, by omega⟩
  rw [linspace, List.range_succ, List.map_append]
  simp only [List.map_cons, List.map_nil]
  rw [List.getLastD_eq_getLast?, List.getLast?_concat, Option.getD_some]
  have hm : (1 : ℚ) ≤ (m : ℚ) := by
    have : (1 : ℕ) ≤ m := by omega
    exact_mod_cast this
  have hne : ((m : ℚ) + 1) - 1 ≠ 0 := by
    intro h
    rw [show ((m : ℚ) + 1) - 1 = (m : ℚ) by ring] at h
    rw [h] at hm
    norm_num at hm
  push_cast
  push_cast at hne
  field_simp

theorem linspace_chain' {a b : ℚ} (hab : a < b) (n : ℕ) :
    List.Chain' (· < ·) (linspace a b n) := by
  rw [linspace, List.chain'_map]
  cases n with
  | zero => simp
  | succ m =>
    rw [List.chain'_range_succ]
    intro i him
    have hm : (1 : ℚ) ≤ (m : ℚ) := by
      have : (1 : ℕ) ≤ m := by omega
      exact_mod_cast this
    have hden : (0 : ℚ) < ((m : ℚ) + 1) - 1 := by linarith
    have hnum : (b - a) * i < (b - a) * (i + 1) := by
      have : (i : ℚ) < (i : ℚ) + 1 := by linarith
      exact mul_lt_mul_of_pos_left this (by linarith)
    have := div_lt_div_of_pos_right hnum hden
    push_cast
    push_cast at this
    linarith

theorem linspace_mem {a b y : ℚ} {n : ℕ} (hab : a ≤ b)
    (hy : y ∈ linspace a b n) : a ≤ y ∧ y ≤ b := by
  rw [linspace, List.mem_map] at hy
  obtain ⟨i, hi, rfl⟩ := hy
  rw [List.mem_range] at hi
  rcases Nat.lt_or_ge n 2 with hn | hn
  · have : i = 0 := by omega
    subst this
    simp [hab]
  · have hm : (1 : ℚ) ≤ (n : ℚ) - 1 := by
      have : (2 : ℕ) ≤ n := hn
      have : (2 : ℚ) ≤ (n : ℚ) := by exact_mod_cast this
      linarith
    have hden : (0 : ℚ) < (n : ℚ) - 1 := by linarith
    have hi' : (i : ℚ) ≤ (n : ℚ) - 1 := by
      have : (i : ℚ) + 1 ≤ (n : ℚ) := by exact_mod_cast hi
      linarith
    constructor
    · have h1 : 0 ≤ (b - a) * i / ((n : ℚ) - 1) :=
        div_nonneg (mul_nonneg (by linarith) (by positivity)) (le_of_lt hden)
      linarith
    · have h2 : (b - a) * i ≤ (b - a) * ((n : ℚ) - 1) :=
        mul_le_mul_of_nonneg_left hi' (by linarith)
      have h3 : (b - a) * i / ((n : ℚ) - 1) ≤ (b - a) * ((n : ℚ) - 1) / ((n : ℚ) - 1) :=
        div_le_div_of_nonneg_right ?_ (le_of_lt hden)
      · have h4 : (b - a) * ((n : ℚ) - 1) / ((n : ℚ) - 1) = b - a := by
          rw [mul_div_assoc, div_self (ne_of_gt hden), mul_one]
        rw [h4] at h3
        linarith
      · exact h2

/-! ### `cumtrapz` / `trapz` equations and lemmas -/

theorem cumtrapzFrom_cons (acc y0 y1 x0 x1 : ℚ) (ys xs : List ℚ) :
    cumtrapzFrom acc (y0 :: y1 :: ys) (x0 :: x1 :: xs) =
      (acc + (x1 - x0) * (y0 + y1) / 2) ::
        cumtrapzFrom (acc + (x1 - x0) * (y0 + y1) / 2) (y1 :: ys) (x1 :: xs) := rfl

theorem cumtrapzFrom_nil_left (acc : ℚ) : ∀ xs : List ℚ,
    cumtrapzFrom acc [] xs = []
  | [] => rfl
  | _ :: _ => rfl

theorem cumtrapzFrom_single_left (acc y : ℚ) : ∀ xs : List ℚ,
    cumtrapzFrom acc [y] xs = []
  | [] => rfl
  | [_] => rfl
  | _ :: _ :: _ => rfl

theorem cumtrapzFrom_nil_right (acc : ℚ) : ∀ ys : List ℚ,
    cumtrapzFrom acc ys [] = []
  | [] => rfl
  | [_] => rfl
  | _ :: _ :: _ => rfl

theorem cumtrapzFrom_single_right (acc x : ℚ) : ∀ ys : List ℚ,
    cumtrapzFrom acc ys [x] = []
  | [] => rfl
  | [_] => rfl
  | _ :: _ :: _ => rfl

theorem trapz_cons (y0 y1 x0 x1 : ℚ) (ys xs : List ℚ) :
    trapz (y0 :: y1 :: ys) (x0 :: x1 :: xs) =
      (x1 - x0) * (y0 + y1) / 2 + trapz (y1 :: ys) (x1 :: xs) := rfl

theorem trapz_nil_left : ∀ xs : List ℚ, trapz [] xs = 0
  | [] => rfl
  | _ :: _ => rfl

theorem trapz_single_left (y : ℚ) : ∀ xs : List ℚ, trapz [y] xs = 0
  | [] => rfl
  | [_] => rfl
  | _ :: _ :: _ => rfl

theorem trapz_nil_right : ∀ ys : List ℚ, trapz ys [] = 0
  | [] => rfl
  | [_] => rfl
  | _ :: _ :: _ => rfl

theorem trapz_single_right (x : ℚ) : ∀ ys : List ℚ, trapz ys [x] = 0
  | [] => rfl
  | [_] => rfl
  | _ :: _ :: _ => rfl

theorem chain'_le_cumtrapzFrom :
    ∀ (acc : ℚ) (ys xs : List ℚ), (∀ y ∈ ys, 0 ≤ y) → List.Chain' (· ≤ ·) xs →
      List.Chain' (· ≤ ·) (acc :: cumtrapzFrom acc ys xs)
  | acc, y0 :: y1 :: ys, x0 :: x1 :: xs, hy, hx => by
    rw [cumtrapzFrom_cons, List.chain'_cons]
    refine ⟨?_, chain'_le_cumtrapzFrom _ (y1 :: ys) (x1 :: xs)
      (fun y h => hy y (List.mem_cons_of_mem _ h)) hx.tail⟩
    have h01 : x0 ≤ x1 := (List.chain'_cons.mp hx).1
    have hy0 : 0 ≤ y0 := hy y0 (by simp)
    have hy1 : 0 ≤ y1 := hy y1 (by simp)
    have : 0 ≤ (x1 - x0) * (y0 + y1) := mul_nonneg (by linarith) (by linarith)
    linarith
  | acc, [], xs, _, _ => by rw [cumtrapzFrom_nil_left]; simp
  | acc, [y], xs, _, _ => by rw [cumtrapzFrom_single_left]; simp
  | acc, _ :: _ :: _, [], _, _ => by rw [cumtrapzFrom_nil_right]; simp
  | acc, _ :: _ :: _, [x], _, _ => by rw [cumtrapzFrom_single_right]; simp

theorem chain'_lt_cumtrapzFrom :
    ∀ (acc : ℚ) (ys xs : List ℚ), (∀ y ∈ ys, 0 < y) → List.Chain' (· < ·) xs →
      List.Chain' (· < ·) (acc :: cumtrapzFrom acc ys xs)
  | acc, y0 :: y1 :: ys, x0 :: x1 :: xs, hy, hx => by
    rw [cumtrapzFrom_cons, List.chain'_cons]
    refine ⟨?_, chain'_lt_cumtrapzFrom _ (y1 :: ys) (x1 :: xs)
      (fun y h => hy y (List.mem_cons_of_mem _ h)) hx.tail⟩
    have h01 : x0 < x1 := (List.chain'_cons.mp hx).1
    have hy0 : 0 < y0 := hy y0 (by simp)
    have hy1 : 0 < y1 := hy y1 (by simp)
    have : 0 < (x1 - x0) * (y0 + y1) := mul_pos (by linarith) (by linarith)
    linarith
  | acc, [], xs, _, _ => by rw [cumtrapzFrom_nil_left]; simp
  | acc, [y], xs, _, _ => by rw [cumtrapzFrom_single_left]; simp
  | acc, _ :: _ :: _, [], _, _ => by rw [cumtrapzFrom_nil_right]; simp
  | acc, _ :: _ :: _, [x], _, _ => by rw [cumtrapzFrom_single_right]; simp

theorem cumtrapz_chain'_le {ys xs : List ℚ} (hy : ∀ y ∈ ys, 0 ≤ y)
    (hx : List.Chain' (· ≤ ·) xs) : List.Chain' (· ≤ ·) (cumtrapz ys xs) :=
  chain'_le_cumtrapzFrom 0 ys xs hy hx

theorem cumtrapz_chain'_lt {ys xs : List ℚ} (hy : ∀ y ∈ ys, 0 < y)
    (hx : List.Chain' (· < ·) xs) : List.Chain' (· < ·) (cumtrapz ys xs) :=
  chain'_lt_cumtrapzFrom 0 ys xs hy hx

theorem cumtrapz_headD (ys xs : List ℚ) (d : ℚ) :
    (cumtrapz ys xs).headD d = 0 := rfl

theorem cumtrapz_ne_nil (ys xs : List ℚ) : cumtrapz ys xs ≠ [] := by
  simp [cumtrapz]

theorem cumtrapzFrom_getLastD :
    ∀ (acc : ℚ) (ys xs : List ℚ),
      (cumtrapzFrom acc ys xs).getLastD acc = acc + trapz ys xs
  | acc, y0 :: y1 :: ys, x0 :: x1 :: xs => by
    rw [cumtrapzFrom_cons, List.getLastD_cons,
      cumtrapzFrom_getLastD _ (y1 :: ys) (x1 :: xs), trapz_cons]
    ring
  | acc, [], xs => by rw [cumtrapzFrom_nil_left, trapz_nil_left]; simp
  | acc, [y], xs => by rw [cumtrapzFrom_single_left, trapz_single_left]; simp
  | acc, _ :: _ :: _, [] => by rw [cumtrapzFrom_nil_right, trapz_nil_right]; simp
  | acc, _ :: _ :: _, [x] => by
    rw [cumtrapzFrom_single_right, trapz_single_right]; simp

theorem cumtrapz_getLastD (ys xs : List ℚ) (d : ℚ) :
    (cumtrapz ys xs).getLastD d = trapz ys xs := by
  rw [cumtrapz, List.getLastD_cons, cumtrapzFrom_getLastD]
  simp

theorem cumtrapzFrom_length :
    ∀ (acc : ℚ) (ys xs : List ℚ), ys.length = xs.length →
      (cumtrapzFrom acc ys xs).length + 1 = max xs.length 1
  | acc, y0 :: y1 :: ys, x0 :: x1 :: xs, h => by
    rw [cumtrapzFrom_cons]
    have := cumtrapzFrom_length (acc + (x1 - x0) * (y0 + y1) / 2)
      (y1 :: ys) (x1 :: xs) (by simpa using h)
    simp only [List.length_cons] at this ⊢
    omega
  | acc, [], [], _ => by rw [cumtrapzFrom_nil_left]; rfl
  | acc, [], _ :: _, h => by simp at h
  | acc, [y], [x], _ => by rw [cumtrapzFrom_single_left]; rfl
  | acc, [y], _ :: _ :: _, h => by simp at h
  | acc, [y], [], h => by simp at h
  | acc, _ :: _ :: _, [], h => by simp at h
  | acc, _ :: _ :: _, [x], h => by simp at h

theorem cumtrapz_length {ys xs : List ℚ} (h : ys.length = xs.length)
    (hne : xs ≠ []) : (cumtrapz ys xs).length = xs.length := by
  rw [cumtrapz, List.length_cons]
  have := cumtrapzFrom_length 0 ys xs h
  have hx : 1 ≤ xs.length := by
    cases xs with
    | nil => exact absurd rfl hne
    | cons a l => simp
  omega

theorem trapz_nonneg : ∀ (ys xs : List ℚ), (∀ y ∈ ys, 0 ≤ y) →
    List.Chain' (· ≤ ·) xs → 0 ≤ trapz ys xs
  | y0 :: y1 :: ys, x0 :: x1 :: xs, hy, hx => by
    rw [trapz_cons]
    have h01 : x0 ≤ x1 := (List.chain'_cons.mp hx).1
    have hy0 : 0 ≤ y0 := hy y0 (by simp)
    have hy1 : 0 ≤ y1 := hy y1 (by simp)
    have hrest := trapz_nonneg (y1 :: ys) (x1 :: xs)
      (fun y h => hy y (List.mem_cons_of_mem _ h)) hx.tail
    have : 0 ≤ (x1 - x0) * (y0 + y1) := mul_nonneg (by linarith) (by linarith)
    linarith
  | [], xs, _, _ => by rw [trapz_nil_left]
  | [y], xs, _, _ => by rw [trapz_single_left]
  | _ :: _ :: _, [], _, _ => by rw [trapz_nil_right]
  | _ :: _ :: _, [x], _, _ => by rw [trapz_single_right]

theorem trapz_pos {ys xs : List ℚ} (hlen : ys.length = xs.length)
    (h2 : 2 ≤ xs.length) (hy : ∀ y ∈ ys, 0 < y)
    (hx : List.Chain' (· < ·) xs) : 0 < trapz ys xs := by
  cases xs with
  | nil => simp at h2
  | cons x0 xs1 =>
    cases xs1 with
    | nil => simp at h2
    | cons x1 xs' =>
      cases ys with
      | nil => simp at hlen
      | cons y0 ys1 =>
        cases ys1 with
        | nil => simp at hlen
        | cons y1 ys' =>
          rw [trapz_cons]
          have h01 : x0 < x1 := (List.chain'_cons.mp hx).1
          have hy0 : 0 < y0 := hy y0 (by simp)
          have hy1 : 0 < y1 := hy y1 (by simp)
          have hrest := trapz_nonneg (y1 :: ys') (x1 :: xs')
            (fun y h => le_of_lt (hy y (List.mem_cons_of_mem _ h)))
            (List.Chain'.imp (fun a b hab => le_of_lt hab) hx.tail)
          have : 0 < (x1 - x0) * (y0 + y1) := mul_pos (by linarith) (by linarith)
          linarith

theorem trapz_map_div : ∀ (ys xs : List ℚ) (c : ℚ),
    trapz (ys.map (fun y => y / c)) xs = trapz ys xs / c
  | y0 :: y1 :: ys, x0 :: x1 :: xs, c => by
    rw [List.map_cons, List.map_cons, trapz_cons, trapz_cons]
    rw [show ((ys.map (fun y => y / c))) = ((y1 :: ys).map (fun y => y / c)).tail by simp]
    rw [show ((y1 / c) :: ((y1 :: ys).map (fun y => y / c)).tail) =
      ((y1 :: ys).map (fun y => y / c)) by simp]
    rw [trapz_map_div (y1 :: ys) (x1 :: xs) c]
    field_simp
    ring
  | [], xs, c => by rw [List.map_nil, trapz_nil_left, zero_div]
  | [y], xs, c => by
    simp [List.map_cons, List.map_nil, trapz_single_left]
  | y0 :: y1 :: ys, [], c => by
    rw [trapz_nil_right, trapz_nil_right, zero_div]
  | y0 :: y1 :: ys, [x], c => by
    rw [trapz_single_right, trapz_single_right, zero_div]

/-! ### `setLast` lemmas -/

theorem getLastD_irrel : ∀ (l : List ℚ), l ≠ [] → ∀ d1 d2 : ℚ,
    l.getLastD d1 = l.getLastD d2
  | [x], _, d1, d2 => rfl
  | x :: y :: l, _, d1, d2 => by simp only [List.getLastD_cons]
  | [], h, _, _ => absurd rfl h

theorem setLast_eq_self : ∀ (l : List ℚ) (v : ℚ), l.getLastD 0 = v →
    setLast l v = l
  | [], _, _ => rfl
  | [x], v, h => by
    have hx : ([x] : List ℚ).getLastD 0 = x := rfl
    rw [hx] at h
    subst h
    rfl
  | x :: y :: l, v, h => by
    rw [List.getLastD_cons] at h
    rw [setLast]
    rw [setLast_eq_self (y :: l) v (by rw [getLastD_irrel (y :: l) (by simp) 0 x]; exact h)]

/-! ### `pyMin` / `pyMax` on sorted input -/

theorem foldl_min_of_le : ∀ (xs : List ℚ) (x : ℚ), (∀ y ∈ xs, x ≤ y) →
    xs.foldl min x = x
  | [], _, _ => rfl
  | y :: ys, x, h => by
    rw [List.foldl_cons, min_eq_left (h y (by simp))]
    exact foldl_min_of_le ys x (fun z hz => h z (by simp [hz]))

theorem pyMin_sorted {x : ℚ} {xs : List ℚ}
    (h : List.Chain' (· ≤ ·) (x :: xs)) : pyMin (x :: xs) = x := by
  rw [pyMin]
  apply foldl_min_of_le
  intro y hy
  exact List.rel_of_pairwise_cons (List.chain'_iff_pairwise.mp h) hy

theorem foldl_max_sorted : ∀ (xs : List ℚ) (x : ℚ),
    List.Chain' (· ≤ ·) (x :: xs) → xs.foldl max x = (x :: xs).getLastD 0
  | [], x, _ => by simp
  | y :: ys, x, h => by
    rw [List.foldl_cons, max_eq_right (List.chain'_cons.mp h).1]
    rw [foldl_max_sorted ys y (List.chain'_cons.mp h).2]
    rw [show ((x :: y :: ys).getLastD 0) = ((y :: ys).getLastD x) from rfl]
    exact getLastD_irrel (y :: ys) (by simp) 0 x

theorem pyMax_sorted {x : ℚ} {xs : List ℚ}
    (h : List.Chain' (· ≤ ·) (x :: xs)) :
    pyMax (x :: xs) = (x :: xs).getLastD 0 := by
  rw [pyMax]
  exact foldl_max_sorted xs x h

/-! ### `Interp.eval` lemmas -/

theorem chain'_le_getLastD : ∀ {x : ℚ} {l : List ℚ},
    List.Chain' (· ≤ ·) (x :: l) → x ≤ l.getLastD x := by
  intro x l
  induction l generalizing x with
  | nil => simp
  | cons y l' ih =>
    intro h
    rw [List.getLastD_cons]
    exact le_trans (List.chain'_cons.mp h).1 (ih (List.chain'_cons.mp h).2)

theorem interp_eval_of_lt_head {xs ys : List ℚ} {lo hi t : ℚ}
    (hlen : xs.length = ys.length) (hne : xs ≠ [])
    (ht : t < xs.headD 0) : (interp1d xs ys lo hi).eval t = lo := by
  cases xs with
  | nil => exact absurd rfl hne
  | cons x0 xs' =>
    cases ys with
    | nil => simp at hlen
    | cons y0 ys' =>
      rw [List.headD_cons] at ht
      simp only [interp1d, Interp.eval, List.zip_cons_cons, if_pos ht]

theorem interp_eval_of_gt_last {xs ys : List ℚ} {lo hi t : ℚ}
    (hlen : xs.length = ys.length) (hne : xs ≠ [])
    (hch : List.Chain' (· ≤ ·) xs)
    (ht : xs.getLastD 0 < t) : (interp1d xs ys lo hi).eval t = hi := by
  cases xs with
  | nil => exact absurd rfl hne
  | cons x0 xs' =>
    cases ys with
    | nil => simp at hlen
    | cons y0 ys' =>
      have hlen' : xs'.length = ys'.length := by simpa using hlen
      have hlast : ((xs'.zip ys').getLastD (x0, y0)) =
          (xs'.getLastD x0, ys'.getLastD y0) := zip_getLastD xs' ys' hlen' x0 y0
      have hxlast : (x0 :: xs').getLastD 0 = xs'.getLastD x0 := by
        rw [List.getLastD_cons]
      rw [hxlast] at ht
      have hx0 : x0 ≤ xs'.getLastD x0 := chain'_le_getLastD hch
      simp only [interp1d, Interp.eval, List.zip_cons_cons]
      rw [if_neg (by push_neg; linarith), hlast, if_pos ht]

theorem interp_eval_at_head {xs ys : List ℚ} (lo hi : ℚ)
    (hlen : xs.length = ys.length) (hne : xs ≠ [])
    (hch : List.Chain' (· < ·) xs) :
    (interp1d xs ys lo hi).eval (xs.headD 0) = ys.headD 0 := by
  cases xs with
  | nil => exact absurd rfl hne
  | cons x0 xs' =>
    cases ys with
    | nil => simp at hlen
    | cons y0 ys' =>
      have hlen' : xs'.length = ys'.length := by simpa using hlen
      have hlast : ((xs'.zip ys').getLastD (x0, y0)) =
          (xs'.getLastD x0, ys'.getLastD y0) := zip_getLastD xs' ys' hlen' x0 y0
      have hx0 : x0 ≤ xs'.getLastD x0 :=
        chain'_le_getLastD (List.Chain'.imp (fun a b h => le_of_lt h) hch)
      have hchz : List.Chain' FstLt ((x0, y0) :: xs'.zip ys') := by
        have := chain'_zip_fst (r := (· < ·)) (x0 :: xs') (y0 :: ys') hch
        rwa [List.zip_cons_cons] at this
      simp only [interp1d, Interp.eval, List.zip_cons_cons, List.headD_cons]
      rw [if_neg (lt_irrefl x0), hlast, if_neg (by push_neg; exact hx0)]
      exact evalSegs_at_head hchz

theorem interp_eval_at_last {xs ys : List ℚ} (lo hi : ℚ)
    (hlen : xs.length = ys.length) (hne : xs ≠ [])
    (hch : List.Chain' (· < ·) xs) :
    (interp1d xs ys lo hi).eval (xs.getLastD 0) = ys.getLastD 0 := by
  cases xs with
  | nil => exact absurd rfl hne
  | cons x0 xs' =>
    cases ys with
    | nil => simp at hlen
    | cons y0 ys' =>
      have hlen' : xs'.length = ys'.length := by simpa using hlen
      have hlast : ((xs'.zip ys').getLastD (x0, y0)) =
          (xs'.getLastD x0, ys'.getLastD y0) := zip_getLastD xs' ys' hlen' x0 y0
      have hxlast : (x0 :: xs').getLastD 0 = xs'.getLastD x0 := by
        rw [List.getLastD_cons]
      have hylast : (y0 :: ys').getLastD 0 = ys'.getLastD y0 := by
        rw [List.getLastD_cons]
      have hx0 : x0 ≤ xs'.getLastD x0 :=
        chain'_le_getLastD (List.Chain'.imp (fun a b h => le_of_lt h) hch)
      have hchz : List.Chain' FstLt ((x0, y0) :: xs'.zip ys') := by
        have := chain'_zip_fst (r := (· < ·)) (x0 :: xs') (y0 :: ys') hch
        rwa [List.zip_cons_cons] at this
      simp only [interp1d, Interp.eval, List.zip_cons_cons]
      rw [hxlast, if_neg (by push_neg; exact hx0), hlast,
        if_neg (by push_neg; simp)]
      have := evalSegs_at_last hchz
      rw [hlast] at this
      rw [hylast]
      exact this

theorem interp_eval_in_range {xs ys : List ℚ} {lo hi t : ℚ}
    (hlen : xs.length = ys.length) (hne : xs ≠ [])
    (hch : List.Chain' (· < ·) xs) (hys : List.Chain' (· ≤ ·) ys)
    (h0 : xs.headD 0 ≤ t) (h1 : t ≤ xs.getLastD 0) :
    ys.headD 0 ≤ (interp1d xs ys lo hi).eval t ∧
      (interp1d xs ys lo hi).eval t ≤ ys.getLastD 0 := by
  cases xs with
  | nil => exact absurd rfl hne
  | cons x0 xs' =>
    cases ys with
    | nil => simp at hlen
    | cons y0 ys' =>
      have hlen' : xs'.length = ys'.length := by simpa using hlen
      have hlast : ((xs'.zip ys').getLastD (x0, y0)) =
          (xs'.getLastD x0, ys'.getLastD y0) := zip_getLastD xs' ys' hlen' x0 y0
      have hxlast : (x0 :: xs').getLastD 0 = xs'.getLastD x0 := by
        rw [List.getLastD_cons]
      have hylast : (y0 :: ys').getLastD 0 = ys'.getLastD y0 := by
        rw [List.getLastD_cons]
      have hchz : List.Chain' FstLt ((x0, y0) :: xs'.zip ys') := by
        have := chain'_zip_fst (r := (· < ·)) (x0 :: xs') (y0 :: ys') hch
        rwa [List.zip_cons_cons] at this
      have hcsz : List.Chain' SndLe ((x0, y0) :: xs'.zip ys') := by
        have := chain'_zip_snd (r := (· ≤ ·)) (x0 :: xs') (y0 :: ys') hys
        rwa [List.zip_cons_cons] at this
      rw [List.headD_cons] at h0
      rw [hxlast] at h1
      simp only [interp1d, Interp.eval, List.zip_cons_cons, List.headD_cons]
      rw [if_neg (by push_neg; exact h0), hlast, if_neg (by push_neg; exact h1)]
      have := evalSegs_bounds hchz hcsz h0 (by rw [hlast]; exact h1)
      rw [hlast] at this
      rw [hylast]
      exact this

theorem interp_eval_mono_within {xs ys : List ℚ} {lo hi a b : ℚ}
    (hlen : xs.length = ys.length) (hne : xs ≠ [])
    (hch : List.Chain' (· < ·) xs) (hys : List.Chain' (· ≤ ·) ys)
    (h0 : xs.headD 0 ≤ a) (hab : a ≤ b) (h1 : b ≤ xs.getLastD 0) :
    (interp1d xs ys lo hi).eval a ≤ (interp1d xs ys lo hi).eval b := by
  cases xs with
  | nil => exact absurd rfl hne
  | cons x0 xs' =>
    cases ys with
    | nil => simp at hlen
    | cons y0 ys' =>
      have hlen' : xs'.length = ys'.length := by simpa using hlen
      have hlast : ((xs'.zip ys').getLastD (x0, y0)) =
          (xs'.getLastD x0, ys'.getLastD y0) := zip_getLastD xs' ys' hlen' x0 y0
      have hxlast : (x0 :: xs').getLastD 0 = xs'.getLastD x0 := by
        rw [List.getLastD_cons]
      have hchz : List.Chain' FstLt ((x0, y0) :: xs'.zip ys') := by
        have := chain'_zip_fst (r := (· < ·)) (x0 :: xs') (y0 :: ys') hch
        rwa [List.zip_cons_cons] at this
      have hcsz : List.Chain' SndLe ((x0, y0) :: xs'.zip ys') := by
        have := chain'_zip_snd (r := (· ≤ ·)) (x0 :: xs') (y0 :: ys') hys
        rwa [List.zip_cons_cons] at this
      rw [List.headD_cons] at h0
      rw [hxlast] at h1
      have ha' : x0 ≤ a := h0
      have hb' : b ≤ xs'.getLastD x0 := h1
      simp only [interp1d, Interp.eval, List.zip_cons_cons]
      rw [if_neg (by push_neg; exact ha'), hlast,
        if_neg (by push_neg; exact le_trans hab hb'),
        if_neg (by push_neg; linarith), if_neg (by push_neg; exact hb')]
      exact evalSegs_mono hchz hcsz ha' hab (by rw [hlast]; exact hb')

theorem interp_eval_pos {xs ys : List ℚ} {lo hi t : ℚ}
    (hlen : xs.length = ys.length) (hne : xs ≠ [])
    (hch : List.Chain' (· < ·) xs) (hpos : ∀ y ∈ ys, 0 < y)
    (h0 : xs.headD 0 ≤ t) (h1 : t ≤ xs.getLastD 0) :
    0 < (interp1d xs ys lo hi).eval t := by
  cases xs with
  | nil => exact absurd rfl hne
  | cons x0 xs' =>
    cases ys with
    | nil => simp at hlen
    | cons y0 ys' =>
      have hlen' : xs'.length = ys'.length := by simpa using hlen
      have hlast : ((xs'.zip ys').getLastD (x0, y0)) =
          (xs'.getLastD x0, ys'.getLastD y0) := zip_getLastD xs' ys' hlen' x0 y0
      have hxlast : (x0 :: xs').getLastD 0 = xs'.getLastD x0 := by
        rw [List.getLastD_cons]
      have hchz : List.Chain' FstLt ((x0, y0) :: xs'.zip ys') := by
        have := chain'_zip_fst (r := (· < ·)) (x0 :: xs') (y0 :: ys') hch
        rwa [List.zip_cons_cons] at this
      rw [List.headD_cons] at h0
      rw [hxlast] at h1
      simp only [interp1d, Interp.eval, List.zip_cons_cons]
      rw [if_neg (by push_neg; exact h0), hlast, if_neg (by push_neg; exact h1)]
      apply evalSegs_pos hchz _ h0 (by rw [hlast]; exact h1)
      intro r hr
      rcases List.mem_cons.mp hr with rfl | hr'
      · exact hpos y0 (by simp)
      · exact hpos r.2 (List.mem_cons_of_mem _ (List.of_mem_zip hr').2)

theorem interp_eval_mono_global {xs ys : List ℚ} {lo hi a b : ℚ}
    (hlen : xs.length = ys.length) (hne : xs ≠ [])
    (hch : List.Chain' (· < ·) xs) (hys : List.Chain' (· ≤ ·) ys)
    (hlo : lo ≤ ys.headD 0) (hhi : ys.getLastD 0 ≤ hi)
    (hab : a ≤ b) :
    (interp1d xs ys lo hi).eval a ≤ (interp1d xs ys lo hi).eval b := by
  have hyhl : ys.headD 0 ≤ ys.getLastD 0 := by
    cases ys with
    | nil =>
      have : xs = [] := by
        cases xs with
        | nil => rfl
        | cons _ _ => simp at hlen
      exact absurd this hne
    | cons y0 ys' =>
      rw [List.headD_cons, List.getLastD_cons]
      exact chain'_le_getLastD hys
  by_cases hb_lo : b < xs.headD 0
  · have ha_lo : a < xs.headD 0 := lt_of_le_of_lt hab hb_lo
    rw [interp_eval_of_lt_head hlen hne ha_lo, interp_eval_of_lt_head hlen hne hb_lo]
  · by_cases ha_lo : a < xs.headD 0
    · rw [interp_eval_of_lt_head hlen hne ha_lo]
      by_cases hb_hi : xs.getLastD 0 < b
      · rw [interp_eval_of_gt_last hlen hne
          (List.Chain'.imp (fun a b h => le_of_lt h) hch) hb_hi]
        exact le_trans hlo (le_trans hyhl hhi)
      · exact le_trans hlo (interp_eval_in_range hlen hne hch hys
          (not_lt.mp hb_lo) (not_lt.mp hb_hi)).1
    · by_cases hb_hi : xs.getLastD 0 < b
      · rw [interp_eval_of_gt_last hlen hne
          (List.Chain'.imp (fun a b h => le_of_lt h) hch) hb_hi]
        by_cases ha_hi : xs.getLastD 0 < a
        · rw [interp_eval_of_gt_last hlen hne
            (List.Chain'.imp (fun a b h => le_of_lt h) hch) ha_hi]
        · exact le_trans (interp_eval_in_range hlen hne hch hys
            (not_lt.mp ha_lo) (not_lt.mp ha_hi)).2 hhi
      · exact interp_eval_mono_within hlen hne hch hys
          (not_lt.mp ha_lo) hab (not_lt.mp hb_hi)

/-! ### `InterpRaise.eval` lemmas -/

theorem interpRaise_eval_of_lt_head {xs ys : List ℚ} {t : ℚ}
    (hlen : xs.length = ys.length) (hne : xs ≠ [])
    (ht : t < xs.headD 0) : (interp1dRaise xs ys).eval t = none := by
  cases xs with
  | nil => exact absurd rfl hne
  | cons x0 xs' =>
    cases ys with
    | nil => simp at hlen
    | cons y0 ys' =>
      rw [List.headD_cons] at ht
      simp only [interp1dRaise, InterpRaise.eval, List.zip_cons_cons, if_pos ht]

theorem interpRaise_eval_of_gt_last {xs ys : List ℚ} {t : ℚ}
    (hlen : xs.length = ys.length) (hne : xs ≠ [])
    (hch : List.Chain' (· ≤ ·) xs)
    (ht : xs.getLastD 0 < t) : (interp1dRaise xs ys).eval t = none := by
  cases xs with
  | nil => exact absurd rfl hne
  | cons x0 xs' =>
    cases ys with
    | nil => simp at hlen
    | cons y0 ys' =>
      have hlen' : xs'.length = ys'.length := by simpa using hlen
      have hlast : ((xs'.zip ys').getLastD (x0, y0)) =
          (xs'.getLastD x0, ys'.getLastD y0) := zip_getLastD xs' ys' hlen' x0 y0
      have hxlast : (x0 :: xs').getLastD 0 = xs'.getLastD x0 := by
        rw [List.getLastD_cons]
      rw [hxlast] at ht
      have hx0 : x0 ≤ xs'.getLastD x0 := chain'_le_getLastD hch
      simp only [interp1dRaise, InterpRaise.eval, List.zip_cons_cons]
      rw [if_neg (by push_neg; linarith), hlast, if_pos ht]

/-! ### Characterization of a freshly constructed object -/

/-- The state produced by a successful construction with resolved bounds
`mn`, `mx`: the unfolding of `_update_instance` followed by
`_initialize_attributes` on the initial attribute record. -/
def builtState (xx yy : List ℚ) (mn mx : ℚ) : TransInterped :=
  let xx' := linspace mn mx xx.length
  let yy' := xx'.map (interp1d xx yy 0 0).eval
  let total := trapz yy' xx'
  let yyN := yy'.map (fun y => y / total)
  let YYnn := cumtrapz yy' xx'
  let YYf := setLast (cumtrapz yyN xx') 1
  { xx := xx'
    min_limit := pyMin xx
    max_limit := pyMax xx
    _yy := yyN
    all_interpolated := interp1d xx yy 0 0
    trans_min := mn
    trans_max := mx
    _minimum := PyVal.float mn
    _maximum := PyVal.float mx
    init_once := true
    YYnotNorm := YYnn
    Normalizer_calc := interp1d xx' YYnn 0 0
    Inv_Normalizer_calc := interp1d YYnn xx' 0 0
    YY := YYf
    probability_density := interp1d xx' yyN 0 0
    cumulative_distribution := interp1d xx' YYf 0 1
    inverse_cumulative_distribution := interp1dRaise YYf xx' }

theorem mkTransInterped_ok {xx yy : List ℚ} {mnO mxO : Option ℚ}
    {s : TransInterped} (hok : mkTransInterped xx yy mnO mxO = .ok s) :
    ¬ resolvedMax xx mxO < resolvedMin xx mnO ∧
      s = builtState xx yy (resolvedMin xx mnO) (resolvedMax xx mxO) := by
  simp only [mkTransInterped] at hok
  by_cases h : resolvedMax xx mxO < resolvedMin xx mnO
  · rw [if_pos h] at hok
    cases hok
  · rw [if_neg h] at hok
    refine ⟨h, ?_⟩
    rw [← Except.ok.inj hok]
    rfl

theorem mkTransInterped_error {xx yy : List ℚ} {mnO mxO : Option ℚ}
    (h : resolvedMax xx mxO < resolvedMin xx mnO) :
    mkTransInterped xx yy mnO mxO = .error .valueError := by
  simp only [mkTransInterped]
  rw [if_pos h]

theorem mkTransInterped_ok_of_le {xx yy : List ℚ} {mnO mxO : Option ℚ}
    (h : resolvedMin xx mnO ≤ resolvedMax xx mxO) :
    mkTransInterped xx yy mnO mxO =
      .ok (builtState xx yy (resolvedMin xx mnO) (resolvedMax xx mxO)) := by
  simp only [mkTransInterped]
  rw [if_neg (not_lt.mpr h)]
  rfl

theorem resolvedMin_ge (xx : List ℚ) (mnO : Option ℚ) :
    pyMin xx ≤ resolvedMin xx mnO := by
  cases mnO with
  | none => exact le_refl _
  | some m => exact le_max_left _ _

theorem resolvedMax_le (xx : List ℚ) (mxO : Option ℚ) :
    resolvedMax xx mxO ≤ pyMax xx := by
  cases mxO with
  | none => exact le_refl _
  | some m => exact min_le_left _ _

theorem pyMin_eq_headD {xx : List ℚ} (hne : xx ≠ [])
    (hch : List.Chain' (· < ·) xx) : pyMin xx = xx.headD 0 := by
  cases xx with
  | nil => exact absurd rfl hne
  | cons x xs =>
    rw [List.headD_cons]
    exact pyMin_sorted (List.Chain'.imp (fun a b h => le_of_lt h) hch)

theorem pyMax_eq_getLastD {xx : List ℚ} (hne : xx ≠ [])
    (hch : List.Chain' (· < ·) xx) : pyMax xx = xx.getLastD 0 := by
  cases xx with
  | nil => exact absurd rfl hne
  | cons x xs =>
    rw [pyMax_sorted (List.Chain'.imp (fun a b h => le_of_lt h) hch)]

/-! ### Facts about the arrays of a freshly constructed object -/

section BuiltFacts

variable {xx yy : List ℚ} {mn mx : ℚ}

theorem grid_ne_nil (hv : validInput xx yy) (mn mx : ℚ) :
    linspace mn mx xx.length ≠ [] :=
  linspace_ne_nil mn mx (by have := hv.1; omega)

theorem resampled_pos (hv : validInput xx yy)
    (hmn : pyMin xx ≤ mn) (hmx : mx ≤ pyMax xx) (hle : mn ≤ mx) :
    ∀ y ∈ (linspace mn mx xx.length).map (interp1d xx yy 0 0).eval, 0 < y := by
  obtain ⟨h2, hlen, hch, hpos⟩ := hv
  intro y hy
  rw [List.mem_map] at hy
  obtain ⟨t, ht, rfl⟩ := hy
  obtain ⟨ht0, ht1⟩ := linspace_mem hle ht
  have hne : xx ≠ [] := by
    cases xx with
    | nil => simp at h2
    | cons a l => simp
  apply interp_eval_pos hlen hne hch hpos
  · rw [← pyMin_eq_headD hne hch]; linarith
  · rw [← pyMax_eq_getLastD hne hch]; linarith

theorem resampled_total_pos (hv : validInput xx yy)
    (hmn : pyMin xx ≤ mn) (hmx : mx ≤ pyMax xx) (hlt : mn < mx) :
    0 < trapz ((linspace mn mx xx.length).map (interp1d xx yy 0 0).eval)
      (linspace mn mx xx.length) := by
  apply trapz_pos
  · rw [List.length_map]
  · rw [linspace_length]; exact hv.1
  · exact resampled_pos hv hmn hmx (le_of_lt hlt)
  · exact linspace_chain' hlt _

end BuiltFacts

/-! ### Preservation lemmas for mutations -/

theorem initializeAttributes_of_init {s : TransInterped} (h : s.init_once = true) :
    s.initializeAttributes = s := by
  rw [TransInterped.initializeAttributes, if_pos h]

theorem initializeAttributes_bound_fields (s : TransInterped) :
    (s.initializeAttributes)._minimum = s._minimum ∧
    (s.initializeAttributes)._maximum = s._maximum ∧
    (s.initializeAttributes).min_limit = s.min_limit ∧
    (s.initializeAttributes).max_limit = s.max_limit := by
  rw [TransInterped.initializeAttributes]
  by_cases h : s.init_once
  · rw [if_pos h]
    exact ⟨rfl, rfl, rfl, rfl⟩
  · rw [if_neg h]
    exact ⟨rfl, rfl, rfl, rfl⟩

theorem updateInstanceWith_bound_fields (s : TransInterped) (mn mx : ℚ) :
    (s.updateInstanceWith mn mx)._minimum = s._minimum ∧
    (s.updateInstanceWith mn mx)._maximum = s._maximum ∧
    (s.updateInstanceWith mn mx).min_limit = s.min_limit ∧
    (s.updateInstanceWith mn mx).max_limit = s.max_limit := by
  have h := initializeAttributes_bound_fields
    { s with xx := linspace mn mx s.xx.length,
             _yy := (linspace mn mx s.xx.length).map s.all_interpolated.eval }
  exact h

theorem applyMutation_bounds {s s' : TransInterped} {m : Mutation}
    (hm : s.applyMutation m = some s') :
    s'.min_limit = s.min_limit ∧ s'.max_limit = s.max_limit ∧
    (s'._minimum = s._minimum ∨ s'._minimum.geQ s'.min_limit) ∧
    (s'._maximum = s._maximum ∨ s'._maximum.leQ s'.max_limit) := by
  cases m with
  | setMin v =>
    cases v with
    | float q =>
      rw [TransInterped.applyMutation, TransInterped.setMinimum] at hm
      by_cases h : q < s.min_limit
      · rw [if_pos h] at hm; cases hm
      · rw [if_neg h] at hm
        cases hm
        refine ⟨rfl, rfl, Or.inr ?_, Or.inl rfl⟩
        exact not_lt.mp h
    | int n =>
      rw [TransInterped.applyMutation, TransInterped.setMinimum] at hm
      cases hm
    | arr qs =>
      rw [TransInterped.applyMutation, TransInterped.setMinimum] at hm
      by_cases h : qs.any (fun q => decide (q < s.min_limit))
      · rw [if_pos h] at hm; cases hm
      · rw [if_neg h] at hm
        cases hm
        refine ⟨rfl, rfl, Or.inr ?_, Or.inl rfl⟩
        intro q hq
        have := (List.any_eq_false).mp (Bool.not_eq_true _ |>.mp h) q hq
        simpa using this
  | setMax v =>
    cases v with
    | float q =>
      rw [TransInterped.applyMutation, TransInterped.setMaximum] at hm
      by_cases h : s.max_limit < q
      · rw [if_pos h] at hm; cases hm
      · rw [if_neg h] at hm
        cases hm
        exact ⟨rfl, rfl, Or.inl rfl, Or.inr (not_lt.mp h)⟩
    | int n =>
      rw [TransInterped.applyMutation, TransInterped.setMaximum] at hm
      cases hm
    | arr qs =>
      rw [TransInterped.applyMutation, TransInterped.setMaximum] at hm
      by_cases h : qs.any (fun q => decide (s.max_limit < q))
      · rw [if_pos h] at hm; cases hm
      · rw [if_neg h] at hm
        cases hm
        refine ⟨rfl, rfl, Or.inl rfl, Or.inr ?_⟩
        intro q hq
        have := (List.any_eq_false).mp (Bool.not_eq_true _ |>.mp h) q hq
        simpa using this
  | setYY ys =>
    rw [TransInterped.applyMutation, TransInterped.setYY] at hm
    cases hmin : s._minimum with
    | float mn =>
      cases hmax : s._maximum with
      | float mx =>
        rw [hmin, hmax] at hm
        cases hm
        obtain ⟨h1, h2, h3, h4⟩ := updateInstanceWith_bound_fields
          { s with _yy := ys, all_interpolated := interp1d s.xx ys 0 0,
                   _minimum := PyVal.float mn, _maximum := PyVal.float mx } mn mx
        exact ⟨h3, h4, Or.inl h1, Or.inl h2⟩
      | int n => rw [hmin, hmax] at hm; cases hm
      | arr qs => rw [hmin, hmax] at hm; cases hm
    | int n =>
      rw [hmin] at hm
      cases hmax : s._maximum with
      | float mx => rw [hmax] at hm; cases hm
      | int m => rw [hmax] at hm; cases hm
      | arr qs => rw [hmax] at hm; cases hm
    | arr qs =>
      rw [hmin] at hm
      cases hmax : s._maximum with
      | float mx => rw [hmax] at hm; cases hm
      | int m => rw [hmax] at hm; cases hm
      | arr qs2 => rw [hmax] at hm; cases hm

theorem applyMutations_bounds :
    ∀ (ops : List Mutation) (s s' : TransInterped),
      s.applyMutations ops = some s' →
      s'._minimum.geQ s'.min_limit ∨
        (s'._minimum = s._minimum ∧ s'.min_limit = s.min_limit) := by
  intro ops
  induction ops with
  | nil =>
    intro s s' h
    rw [TransInterped.applyMutations] at h
    cases h
    exact Or.inr ⟨rfl, rfl⟩
  | cons m ms ih =>
    intro s s' h
    rw [TransInterped.applyMutations] at h
    cases hstep : s.applyMutation m with
    | none => rw [hstep] at h; cases h
    | some s1 =>
      rw [hstep] at h
      obtain ⟨hml, hxl, hmin, hmax⟩ := applyMutation_bounds hstep
      rcases ih s1 s' h with h' | ⟨he, hl⟩
      · exact Or.inl h'
      · rcases hmin with he1 | hg1
        · exact Or.inr ⟨he.trans he1, hl.trans hml⟩
        · exact Or.inl (by rw [he, hl]; exact hg1)

theorem applyMutations_bounds_max :
    ∀ (ops : List Mutation) (s s' : TransInterped),
      s.applyMutations ops = some s' →
      s'._maximum.leQ s'.max_limit ∨
        (s'._maximum = s._maximum ∧ s'.max_limit = s.max_limit) := by
  intro ops
  induction ops with
  | nil =>
    intro s s' h
    rw [TransInterped.applyMutations] at h
    cases h
    exact Or.inr ⟨rfl, rfl⟩
  | cons m ms ih =>
    intro s s' h
    rw [TransInterped.applyMutations] at h
    cases hstep : s.applyMutation m with
    | none => rw [hstep] at h; cases h
    | some s1 =>
      rw [hstep] at h
      obtain ⟨hml, hxl, hmin, hmax⟩ := applyMutation_bounds hstep
      rcases ih s1 s' h with h' | ⟨he, hl⟩
      · exact Or.inl h'
      · rcases hmax with he1 | hg1
        · exact Or.inr ⟨he.trans he1, hl.trans hxl⟩
        · exact Or.inl (by rw [he, hl]; exact hg1)

/-! ### Frozen-interpolant lemmas (the one-shot guard) -/

theorem updateInstanceWith_frozen_fields (s : TransInterped)
    (hinit : s.init_once = true) (mn mx : ℚ) :
    (s.updateInstanceWith mn mx).init_once = true ∧
    (s.updateInstanceWith mn mx).probability_density = s.probability_density ∧
    (s.updateInstanceWith mn mx).cumulative_distribution = s.cumulative_distribution ∧
    (s.updateInstanceWith mn mx).inverse_cumulative_distribution =
      s.inverse_cumulative_distribution ∧
    (s.updateInstanceWith mn mx).Normalizer_calc = s.Normalizer_calc ∧
    (s.updateInstanceWith mn mx).Inv_Normalizer_calc = s.Inv_Normalizer_calc ∧
    (s.updateInstanceWith mn mx).trans_min = s.trans_min ∧
    (s.updateInstanceWith mn mx).trans_max = s.trans_max := by
  rw [TransInterped.updateInstanceWith]
  have h0 : ({ s with
      xx := linspace mn mx s.xx.length,
      _yy := (linspace mn mx s.xx.length).map s.all_interpolated.eval }).init_once
        = true := hinit
  rw [initializeAttributes_of_init h0]
  exact ⟨hinit, rfl, rfl, rfl, rfl, rfl, rfl, rfl⟩

theorem applyMutation_frozen {s s' : TransInterped} (hinit : s.init_once = true)
    {m : Mutation} (hm : s.applyMutation m = some s') :
    s'.init_once = true ∧
    s'.probability_density = s.probability_density ∧
    s'.cumulative_distribution = s.cumulative_distribution ∧
    s'.inverse_cumulative_distribution = s.inverse_cumulative_distribution ∧
    s'.Normalizer_calc = s.Normalizer_calc ∧
    s'.Inv_Normalizer_calc = s.Inv_Normalizer_calc ∧
    s'.trans_min = s.trans_min ∧ s'.trans_max = s.trans_max := by
  cases m with
  | setMin v =>
    cases v with
    | float q =>
      rw [TransInterped.applyMutation, TransInterped.setMinimum] at hm
      by_cases h : q < s.min_limit
      · rw [if_pos h] at hm; cases hm
      · rw [if_neg h] at hm
        cases hm
        exact ⟨hinit, rfl, rfl, rfl, rfl, rfl, rfl, rfl⟩
    | int n =>
      rw [TransInterped.applyMutation, TransInterped.setMinimum] at hm
      cases hm
    | arr qs =>
      rw [TransInterped.applyMutation, TransInterped.setMinimum] at hm
      by_cases h : qs.any (fun q => decide (q < s.min_limit))
      · rw [if_pos h] at hm; cases hm
      · rw [if_neg h] at hm
        cases hm
        exact ⟨hinit, rfl, rfl, rfl, rfl, rfl, rfl, rfl⟩
  | setMax v =>
    cases v with
    | float q =>
      rw [TransInterped.applyMutation, TransInterped.setMaximum] at hm
      by_cases h : s.max_limit < q
      · rw [if_pos h] at hm; cases hm
      · rw [if_neg h] at hm
        cases hm
        exact ⟨hinit, rfl, rfl, rfl, rfl, rfl, rfl, rfl⟩
    | int n =>
      rw [TransInterped.applyMutation, TransInterped.setMaximum] at hm
      cases hm
    | arr qs =>
      rw [TransInterped.applyMutation, TransInterped.setMaximum] at hm
      by_cases h : qs.any (fun q => decide (s.max_limit < q))
      · rw [if_pos h] at hm; cases hm
      · rw [if_neg h] at hm
        cases hm
        exact ⟨hinit, rfl, rfl, rfl, rfl, rfl, rfl, rfl⟩
  | setYY ys =>
    rw [TransInterped.applyMutation, TransInterped.setYY] at hm
    cases hmin : s._minimum with
    | float mn =>
      cases hmax : s._maximum with
      | float mx =>
        rw [hmin, hmax] at hm
        cases hm
        exact updateInstanceWith_frozen_fields
          { s with _yy := ys, all_interpolated := interp1d s.xx ys 0 0,
                   _minimum := PyVal.float mn, _maximum := PyVal.float mx }
          (by exact hinit) mn mx
      | int n => rw [hmin, hmax] at hm; cases hm
      | arr qs => rw [hmin, hmax] at hm; cases hm
    | int n =>
      rw [hmin] at hm
      cases hmax : s._maximum with
      | float mx => rw [hmax] at hm; cases hm
      | int m => rw [hmax] at hm; cases hm
      | arr qs => rw [hmax] at hm; cases hm
    | arr qs =>
      rw [hmin] at hm
      cases hmax : s._maximum with
      | float mx => rw [hmax] at hm; cases hm
      | int m => rw [hmax] at hm; cases hm
      | arr qs2 => rw [hmax] at hm; cases hm

theorem applyMutations_frozen :
    ∀ (ops : List Mutation) (s s' : TransInterped), s.init_once = true →
      s.applyMutations ops = some s' →
      s'.init_once = true ∧
      s'.probability_density = s.probability_density ∧
      s'.cumulative_distribution = s.cumulative_distribution ∧
      s'.inverse_cumulative_distribution = s.inverse_cumulative_distribution ∧
      s'.Normalizer_calc = s.Normalizer_calc ∧
      s'.Inv_Normalizer_calc = s.Inv_Normalizer_calc ∧
      s'.trans_min = s.trans_min ∧ s'.trans_max = s.trans_max := by
  intro ops
  induction ops with
  | nil =>
    intro s s' hinit h
    rw [TransInterped.applyMutations] at h
    cases h
    exact ⟨hinit, rfl, rfl, rfl, rfl, rfl, rfl, rfl⟩
  | cons m ms ih =>
    intro s s' hinit h
    rw [TransInterped.applyMutations] at h
    cases hstep : s.applyMutation m with
    | none => rw [hstep] at h; cases h
    | some s1 =>
      rw [hstep] at h
      obtain ⟨i1, p1, c1, q1, n1, v1, t1, u1⟩ := applyMutation_frozen hinit hstep
      obtain ⟨i2, p2, c2, q2, n2, v2, t2, u2⟩ := ih s1 s' i1 h
      exact ⟨i2, p2.trans p1, c2.trans c1, q2.trans q1, n2.trans n1,
        v2.trans v1, t2.trans t1, u2.trans u1⟩

/-! ### Bundled facts about the arrays of a valid construction -/

/-- The resampled grid `linspace(minimum, maximum, len(xx))` of a
construction. -/
def gridArr (xx : List ℚ) (mn mx : ℚ) : List ℚ := linspace mn mx xx.length

/-- The density samples resampled onto the grid by the master
interpolant. -/
def resampArr (xx yy : List ℚ) (mn mx : ℚ) : List ℚ :=
  (gridArr xx mn mx).map (interp1d xx yy 0 0).eval

/-- The total unnormalized integral `np.trapz(_yy, xx)`. -/
def totalArea (xx yy : List ℚ) (mn mx : ℚ) : ℚ :=
  trapz (resampArr xx yy mn mx) (gridArr xx mn mx)

/-- The normalized density samples. -/
def normArr (xx yy : List ℚ) (mn mx : ℚ) : List ℚ :=
  (resampArr xx yy mn mx).map (fun y => y / totalArea xx yy mn mx)

/-- The unnormalized cumulative sequence `YYnotNorm`. -/
def rawCumArr (xx yy : List ℚ) (mn mx : ℚ) : List ℚ :=
  cumtrapz (resampArr xx yy mn mx) (gridArr xx mn mx)

/-- The normalized cumulative sequence before the last-element fix. -/
def normCumArr (xx yy : List ℚ) (mn mx : ℚ) : List ℚ :=
  cumtrapz (normArr xx yy mn mx) (gridArr xx mn mx)

/-- Facts about the grid, resampled density, unnormalized cumulative and
normalized cumulative arrays of a construction from valid input with
strictly ordered effective bounds. -/
structure BuiltPack (xx yy : List ℚ) (mn mx : ℚ) : Prop where
  gchain : List.Chain' (· < ·) (gridArr xx mn mx)
  gchainLe : List.Chain' (· ≤ ·) (gridArr xx mn mx)
  gne : gridArr xx mn mx ≠ []
  ghead : (gridArr xx mn mx).headD 0 = mn
  glast : (gridArr xx mn mx).getLastD 0 = mx
  rpos : ∀ y ∈ resampArr xx yy mn mx, 0 < y
  tpos : 0 < totalArea xx yy mn mx
  nnchain : List.Chain' (· < ·) (rawCumArr xx yy mn mx)
  nnlen : (rawCumArr xx yy mn mx).length = (gridArr xx mn mx).length
  normNonneg : ∀ y ∈ normArr xx yy mn mx, 0 ≤ y
  nlen : (normArr xx yy mn mx).length = (gridArr xx mn mx).length
  cchainLe : List.Chain' (· ≤ ·) (normCumArr xx yy mn mx)
  clen : (normCumArr xx yy mn mx).length = (gridArr xx mn mx).length
  clast : (normCumArr xx yy mn mx).getLastD 0 = 1
  cfix : setLast (normCumArr xx yy mn mx) 1 = normCumArr xx yy mn mx

theorem builtPack {xx yy : List ℚ} {mn mx : ℚ} (hv : validInput xx yy)
    (hmn : pyMin xx ≤ mn) (hmx : mx ≤ pyMax xx) (hlt : mn < mx) :
    BuiltPack xx yy mn mx := by
  have h2 : 2 ≤ xx.length := hv.1
  have hgne : gridArr xx mn mx ≠ [] := grid_ne_nil hv mn mx
  have hgchain : List.Chain' (· < ·) (gridArr xx mn mx) :=
    linspace_chain' hlt _
  have hgchainLe : List.Chain' (· ≤ ·) (gridArr xx mn mx) :=
    List.Chain'.imp (fun a b h => le_of_lt h) hgchain
  have hrpos : ∀ y ∈ resampArr xx yy mn mx, 0 < y :=
    resampled_pos hv hmn hmx (le_of_lt hlt)
  have htpos : 0 < totalArea xx yy mn mx :=
    resampled_total_pos hv hmn hmx hlt
  have hrlen : (resampArr xx yy mn mx).length = (gridArr xx mn mx).length := by
    rw [resampArr, List.length_map]
  have hnlen : (normArr xx yy mn mx).length = (gridArr xx mn mx).length := by
    rw [normArr, List.length_map, resampArr, List.length_map]
  have hnormNonneg : ∀ y ∈ normArr xx yy mn mx, 0 ≤ y := by
    intro y hy
    rw [normArr, List.mem_map] at hy
    obtain ⟨r, hr, rfl⟩ := hy
    exact le_of_lt (div_pos (hrpos r hr) htpos)
  have hclast : (normCumArr xx yy mn mx).getLastD 0 = 1 := by
    rw [normCumArr, cumtrapz_getLastD, normArr, trapz_map_div]
    exact div_self (ne_of_gt htpos)
  exact
    { gchain := hgchain
      gchainLe := hgchainLe
      gne := hgne
      ghead := linspace_headD (by omega) mn mx 0
      glast := linspace_getLastD h2 mn mx 0
      rpos := hrpos
      tpos := htpos
      nnchain := cumtrapz_chain'_lt hrpos hgchain
      nnlen := cumtrapz_length hrlen hgne
      normNonneg := hnormNonneg
      nlen := hnlen
      cchainLe := cumtrapz_chain'_le hnormNonneg hgchainLe
      clen := cumtrapz_length hnlen hgne
      clast := hclast
      cfix := setLast_eq_self _ _ hclast }

/-! ### Definitional views of a constructed object's components -/

theorem built_xx (xx yy : List ℚ) (mn mx : ℚ) :
    (builtState xx yy mn mx).xx = gridArr xx mn mx := rfl

theorem built_trans_min (xx yy : List ℚ) (mn mx : ℚ) :
    (builtState xx yy mn mx).trans_min = mn := rfl

theorem built_trans_max (xx yy : List ℚ) (mn mx : ℚ) :
    (builtState xx yy mn mx).trans_max = mx := rfl

theorem built_cdf_eval (xx yy : List ℚ) (mn mx v : ℚ) :
    (builtState xx yy mn mx).cdf v =
      (interp1d (gridArr xx mn mx) (setLast (normCumArr xx yy mn mx) 1) 0 1).eval v :=
  rfl

theorem built_prob_eval (xx yy : List ℚ) (mn mx v : ℚ) :
    (builtState xx yy mn mx).prob v =
      (interp1d (gridArr xx mn mx) (normArr xx yy mn mx) 0 0).eval v := rfl

theorem built_icdf (xx yy : List ℚ) (mn mx : ℚ) :
    (builtState xx yy mn mx).inverse_cumulative_distribution =
      interp1dRaise (setLast (normCumArr xx yy mn mx) 1) (gridArr xx mn mx) := rfl

theorem built_norm (xx yy : List ℚ) (mn mx : ℚ) :
    (builtState xx yy mn mx).Normalizer_calc =
      interp1d (gridArr xx mn mx) (rawCumArr xx yy mn mx) 0 0 := rfl

theorem built_inv (xx yy : List ℚ) (mn mx : ℚ) :
    (builtState xx yy mn mx).Inv_Normalizer_calc =
      interp1d (rawCumArr xx yy mn mx) (gridArr xx mn mx) 0 0 := rfl

theorem rawCumArr_headD (xx yy : List ℚ) (mn mx : ℚ) :
    (rawCumArr xx yy mn mx).headD 0 = 0 := rfl

theorem normCumArr_headD (xx yy : List ℚ) (mn mx : ℚ) :
    (normCumArr xx yy mn mx).headD 0 = 0 := rfl

theorem rawCumArr_ne_nil (xx yy : List ℚ) (mn mx : ℚ) :
    rawCumArr xx yy mn mx ≠ [] := cumtrapz_ne_nil _ _

theorem normCumArr_ne_nil (xx yy : List ℚ) (mn mx : ℚ) :
    normCumArr xx yy mn mx ≠ [] := cumtrapz_ne_nil _ _

theorem rawCumArr_getLastD (xx yy : List ℚ) (mn mx : ℚ) :
    (rawCumArr xx yy mn mx).getLastD 0 = totalArea xx yy mn mx :=
  cumtrapz_getLastD _ _ _

/-! ### Shared concrete instances for witnesses -/

theorem exState_ok :
    mkTransInterped [0, 1, 2, 3, 4] [1, 1, 1, 1, 1] none none = .ok exState := rfl

/-- A mutation sequence used by witnesses: tighten the maximum, replace the
raw density, tighten the minimum. -/
def exMutations : List Mutation :=
  [Mutation.setMax (PyVal.float 3), Mutation.setYY [5, 5, 5, 5, 5],
   Mutation.setMin (PyVal.float (1/2))]

/-- The state reached from `exState` through `exMutations`. -/
def exMutState : TransInterped :=
  (exState.applyMutations exMutations).getD emptyState

theorem exMutState_reached :
    exState.applyMutations exMutations = some exMutState := by
  with_unfolding_all rfl

/-! ### Claim theorems -/

/-- C1: for every unit-interval input `val`, `rescale(val)` equals
`Inv_Normalizer_calc(y_lo + (y_hi - y_lo) * val)` with
`y_lo = Normalizer_calc(trans_min)` and `y_hi = Normalizer_calc(trans_max)`,
where `trans_min`/`trans_max` are the resolved bounds frozen at
construction; the result is a scalar for scalar input (the model's
`rescale` is ℚ → ℚ) and an array of the same shape (length) for array
input. -/
theorem C1_rescale_formula {xx yy : List ℚ} {mnO mxO : Option ℚ}
    {s : TransInterped} (hok : mkTransInterped xx yy mnO mxO = .ok s)
    (v : ℚ) (vs : List ℚ) :
    s.rescale v = s.Inv_Normalizer_calc.eval
        (s.Normalizer_calc.eval s.trans_min +
          (s.Normalizer_calc.eval s.trans_max -
            s.Normalizer_calc.eval s.trans_min) * v) ∧
    s.trans_min = resolvedMin xx mnO ∧ s.trans_max = resolvedMax xx mxO ∧
    (s.rescaleArr vs).length = vs.length := by
  obtain ⟨-, rfl⟩ := mkTransInterped_ok hok
  refine ⟨rfl, rfl, rfl, ?_⟩
  rw [TransInterped.rescaleArr, List.length_map]

/-- Witness for C1 at the spec's concrete scenario. -/
theorem C1_witness :
    exState.rescale (1/2) = exState.Inv_Normalizer_calc.eval
        (exState.Normalizer_calc.eval exState.trans_min +
          (exState.Normalizer_calc.eval exState.trans_max -
            exState.Normalizer_calc.eval exState.trans_min) * (1/2)) ∧
    (exState.rescaleArr [0, 1/2, 1]).length = ([0, 1/2, 1] : List ℚ).length :=
  ⟨(C1_rescale_formula exState_ok (1/2) [0, 1/2, 1]).1,
   (C1_rescale_formula exState_ok (1/2) [0, 1/2, 1]).2.2.2⟩

/-- C5: construction raises exactly when the clamped bounds satisfy
`minimum > maximum`, and otherwise fully succeeds with the one-shot guard
set (a usable object).  The array-validity hypotheses record scipy's
preconditions (at least two knots, equal lengths). -/
theorem C5_construction_bounds {xx yy : List ℚ} (mnO mxO : Option ℚ)
    (h2 : 2 ≤ xx.length) (hlen : xx.length = yy.length) :
    (resolvedMax xx mxO < resolvedMin xx mnO →
      mkTransInterped xx yy mnO mxO = .error .valueError) ∧
    (resolvedMin xx mnO ≤ resolvedMax xx mxO →
      ∃ s, mkTransInterped xx yy mnO mxO = .ok s ∧ s.init_once = true) :=
  ⟨fun h => mkTransInterped_error h,
   fun h => ⟨_, mkTransInterped_ok_of_le h, rfl⟩⟩

/-- Witness for C5: with caller maximum −1 the clamped bounds conflict and
construction raises; with caller maximum 3 it succeeds. -/
theorem C5_witness :
    (resolvedMax [0, 1, 2, 3, 4] (some (-1)) < resolvedMin [0, 1, 2, 3, 4] none →
      mkTransInterped [0, 1, 2, 3, 4] [1, 1, 1, 1, 1] none (some (-1)) =
        .error .valueError) ∧
    (resolvedMin [0, 1, 2, 3, 4] none ≤ resolvedMax [0, 1, 2, 3, 4] (some 3) →
      ∃ s, mkTransInterped [0, 1, 2, 3, 4] [1, 1, 1, 1, 1] none (some 3) = .ok s ∧
        s.init_once = true) :=
  ⟨(C5_construction_bounds none (some (-1)) (by decide) (by decide)).1,
   (C5_construction_bounds none (some 3) (by decide) (by decide)).2⟩

/-- C8: assigning a float to `minimum` raises a `ValueError` exactly when
the value is below `min_limit` (the error carries no mutated state), and
any float at or above `min_limit` is stored with all other fields
unchanged; symmetrically for `maximum` against `max_limit`. -/
theorem C8_setter_range_check (s : TransInterped) (q : ℚ) :
    (s.setMinimum (.float q) = .error .valueError ↔ q < s.min_limit) ∧
    (s.min_limit ≤ q →
      s.setMinimum (.float q) = .ok { s with _minimum := .float q }) ∧
    (s.setMaximum (.float q) = .error .valueError ↔ s.max_limit < q) ∧
    (q ≤ s.max_limit →
      s.setMaximum (.float q) = .ok { s with _maximum := .float q }) := by
  refine ⟨?_, ?_, ?_, ?_⟩
  · by_cases h : q < s.min_limit
    · simp [TransInterped.setMinimum, h]
    · simp [TransInterped.setMinimum, h]
  · intro h
    rw [TransInterped.setMinimum, if_neg (not_lt.mpr h)]
  · by_cases h : s.max_limit < q
    · simp [TransInterped.setMaximum, h]
    · simp [TransInterped.setMaximum, h]
  · intro h
    rw [TransInterped.setMaximum, if_neg (not_lt.mpr h)]

/-- Witness for C8 on the concrete instance (min_limit = 0, max_limit = 4):
storing 2 as minimum succeeds, −1 raises; storing 3 as maximum succeeds,
7 raises. -/
theorem C8_witness :
    exState.setMinimum (.float 2) = .ok { exState with _minimum := .float 2 } ∧
    exState.setMinimum (.float (-1)) = .error .valueError ∧
    exState.setMaximum (.float 3) = .ok { exState with _maximum := .float 3 } ∧
    exState.setMaximum (.float 7) = .error .valueError :=
  ⟨(C8_setter_range_check exState 2).2.1 (by decide),
   (C8_setter_range_check exState (-1)).1.mpr (by decide),
   (C8_setter_range_check exState 3).2.2.2 (by decide),
   (C8_setter_range_check exState 7).2.2.1.mpr (by decide)⟩

/-- C10: assigning a Python int to `minimum` or `maximum` always raises a
`TypeError` before any mutation (the scalar branch only recognizes
`float`, and `any(bool)` is not iterable), whatever the value — even one
inside `[min_limit, max_limit]`. -/
theorem C10_int_assignment_raises (s : TransInterped) (n : ℤ) :
    s.setMinimum (.int n) = .error .typeError ∧
    s.setMaximum (.int n) = .error .typeError :=
  ⟨rfl, rfl⟩

/-- C9 counterexample: the two constructions use identical raw `xx`/`yy`
arrays and differ only in the caller minimum, yet `__eq__` returns false,
because it compares the current (resampled) arrays rather than the raw
ones. -/
theorem C9_counterexample :
    mkTransInterped [0, 1, 2, 3, 4] [1, 1, 1, 1, 1] none none = .ok exState ∧
    mkTransInterped [0, 1, 2, 3, 4] [1, 1, 1, 1, 1] (some 1) none =
      .ok exStateMin1 ∧
    exState.eq exStateMin1 = false := by
  exact ⟨rfl, rfl, by with_unfolding_all decide⟩

/-- C9 (amended): equality depends only on the concrete type and the
current `xx`/`yy` arrays; two instances built from identical raw arrays
with identical bound arguments compare equal, but different bound
arguments change the resampled grid and such instances can compare
unequal. -/
theorem C9_amended_eq_same_bounds {xx yy : List ℚ} {mnO mxO : Option ℚ}
    {a b : TransInterped} (ha : mkTransInterped xx yy mnO mxO = .ok a)
    (hb : mkTransInterped xx yy mnO mxO = .ok b) : a.eq b = true := by
  obtain ⟨-, rfl⟩ := mkTransInterped_ok ha
  obtain ⟨-, rfl⟩ := mkTransInterped_ok hb
  simp [TransInterped.eq]

/-- Witness for the amended C9. -/
theorem C9_amended_witness : exState.eq exState = true :=
  C9_amended_eq_same_bounds exState_ok exState_ok

/-- C6 counterexample: from a successful construction
(min_limit = 0, max_limit = 4, minimum = 0, maximum = 4), the single
successful mutation `maximum := −1.0` (accepted since −1 is not above
max_limit) reaches a state where
`min_limit ≤ minimum ≤ maximum ≤ max_limit` fails (minimum = 0 > −1 =
maximum). -/
theorem C6_counterexample :
    (exState.applyMutations [Mutation.setMax (PyVal.float (-1))]).map
      (fun s => decide s.boundChain) = some false := by decide

/-- C6 (amended): the full chain `min_limit ≤ minimum ≤ maximum ≤ max_limit`
holds at construction, but each setter validates only against its own
hard limit, so along any sequence of successful mutations only
`min_limit ≤ minimum` (elementwise for arrays) and
`maximum ≤ max_limit` are invariant; `minimum ≤ maximum` can be broken. -/
theorem C6_amended_bound_invariants {xx yy : List ℚ} {mnO mxO : Option ℚ}
    {s s' : TransInterped} (hok : mkTransInterped xx yy mnO mxO = .ok s)
    (ops : List Mutation) (hm : s.applyMutations ops = some s') :
    s.boundChain ∧
    s'._minimum.geQ s'.min_limit ∧ s'._maximum.leQ s'.max_limit := by
  obtain ⟨hguard, rfl⟩ := mkTransInterped_ok hok
  have hchain : (builtState xx yy (resolvedMin xx mnO) (resolvedMax xx mxO)).boundChain := by
    show pyMin xx ≤ resolvedMin xx mnO ∧
      resolvedMin xx mnO ≤ resolvedMax xx mxO ∧ resolvedMax xx mxO ≤ pyMax xx
    exact ⟨resolvedMin_ge xx mnO, not_lt.mp hguard, resolvedMax_le xx mxO⟩
  refine ⟨hchain, ?_, ?_⟩
  · rcases applyMutations_bounds ops _ s' hm with h | ⟨he, hl⟩
    · exact h
    · rw [he, hl]
      exact hchain.1
  · rcases applyMutations_bounds_max ops _ s' hm with h | ⟨he, hl⟩
    · exact h
    · rw [he, hl]
      exact hchain.2.2

/-- Witness for the amended C6. -/
theorem C6_amended_witness :
    exState.boundChain ∧
    exMutState._minimum.geQ exMutState.min_limit ∧
    exMutState._maximum.leQ exMutState.max_limit :=
  C6_amended_bound_invariants exState_ok exMutations exMutState_reached

/-- C4: once the one-shot guard is set by construction, no sequence of
successful mutations (minimum/maximum assignment or yy replacement —
the latter re-running the grid rebuild) changes the normalized
interpolants, the unnormalized pair, or the frozen `trans_min`/
`trans_max`; consequently `prob`, `cdf` and `rescale` are pointwise
unchanged. -/
theorem C4_frozen_after_init {xx yy : List ℚ} {mnO mxO : Option ℚ}
    {s s' : TransInterped} (hok : mkTransInterped xx yy mnO mxO = .ok s)
    (ops : List Mutation) (hm : s.applyMutations ops = some s') :
    s'.probability_density = s.probability_density ∧
    s'.cumulative_distribution = s.cumulative_distribution ∧
    s'.inverse_cumulative_distribution = s.inverse_cumulative_distribution ∧
    s'.Normalizer_calc = s.Normalizer_calc ∧
    s'.Inv_Normalizer_calc = s.Inv_Normalizer_calc ∧
    ∀ v : ℚ, s'.prob v = s.prob v ∧ s'.cdf v = s.cdf v ∧
      s'.rescale v = s.rescale v := by
  have hinit : s.init_once = true := by
    obtain ⟨-, rfl⟩ := mkTransInterped_ok hok
    rfl
  obtain ⟨-, p1, c1, q1, n1, v1, t1, u1⟩ := applyMutations_frozen ops s s' hinit hm
  refine ⟨p1, c1, q1, n1, v1, fun v => ⟨?_, ?_, ?_⟩⟩
  · rw [TransInterped.prob, TransInterped.prob, p1]
  · rw [TransInterped.cdf, TransInterped.cdf, c1]
  · rw [TransInterped.rescale, TransInterped.rescale, n1, v1, t1, u1]

/-- Witness for C4: after tightening the maximum to 3, replacing yy by a
non-normalized array, and raising the minimum to 1/2, the CDF
interpolant and a rescale output are unchanged. -/
theorem C4_witness :
    exMutState.cumulative_distribution = exState.cumulative_distribution ∧
    exMutState.rescale (1/2) = exState.rescale (1/2) :=
  ⟨(C4_frozen_after_init exState_ok exMutations exMutState_reached).2.1,
   ((C4_frozen_after_init exState_ok exMutations exMutState_reached).2.2.2.2.2
     (1/2)).2.2⟩

/-- C3: after a construction from valid input (strictly increasing `xx`,
positive `yy`, matching lengths, strictly ordered effective bounds), the
cumulative distribution evaluated by `cdf` is non-decreasing everywhere,
`cdf(xx[-1]) = 1` exactly, `cdf(x) = 0` strictly below `xx[0]`, and
`cdf(x) = 1` strictly above `xx[-1]` (with `xx` the current grid). -/
theorem C3_cdf_properties {xx yy : List ℚ} {mnO mxO : Option ℚ}
    {s : TransInterped} (hok : mkTransInterped xx yy mnO mxO = .ok s)
    (hv : validInput xx yy)
    (hlt : resolvedMin xx mnO < resolvedMax xx mxO) :
    (∀ a b : ℚ, a ≤ b → s.cdf a ≤ s.cdf b) ∧
    s.cdf (s.xx.getLastD 0) = 1 ∧
    (∀ x, x < s.xx.headD 0 → s.cdf x = 0) ∧
    (∀ x, s.xx.getLastD 0 < x → s.cdf x = 1) := by
  obtain ⟨hguard, rfl⟩ := mkTransInterped_ok hok
  have p := builtPack hv (resolvedMin_ge xx mnO) (resolvedMax_le xx mxO) hlt
  refine ⟨?_, ?_, ?_, ?_⟩
  · intro a b hab
    rw [built_cdf_eval, built_cdf_eval, p.cfix]
    exact interp_eval_mono_global p.clen.symm p.gne p.gchain p.cchainLe
      (le_of_eq (normCumArr_headD xx yy _ _).symm) (le_of_eq p.clast) hab
  · rw [built_xx, built_cdf_eval, p.cfix,
      interp_eval_at_last 0 1 p.clen.symm p.gne p.gchain, p.clast]
  · intro x hx
    rw [built_xx] at hx
    rw [built_cdf_eval, p.cfix]
    exact interp_eval_of_lt_head p.clen.symm p.gne hx
  · intro x hx
    rw [built_xx] at hx
    rw [built_cdf_eval, p.cfix]
    exact interp_eval_of_gt_last p.clen.symm p.gne p.gchainLe hx

/-- Witness for C3 at the spec's concrete scenario. -/
theorem C3_witness :
    exState.cdf 1 ≤ exState.cdf 3 ∧
    exState.cdf (exState.xx.getLastD 0) = 1 ∧
    exState.cdf (-1) = 0 ∧ exState.cdf 5 = 1 := by
  have h := C3_cdf_properties exState_ok (by decide) (by decide)
  refine ⟨h.1 1 3 (by norm_num), h.2.1, ?_, ?_⟩
  · exact h.2.2.1 (-1) (by with_unfolding_all decide)
  · exact h.2.2.2 5 (by with_unfolding_all decide)

/-- C7: `inverse_cumulative_distribution` raises (evaluates to `none`) for
every query strictly outside `[0,1]` — in particular at −0.1 and 1.1 —
while `prob` and `cdf` are total and return the zero/clamped values for
out-of-range inputs (`prob` 0 on both sides; `cdf` 0 below the support
and 1 above). -/
theorem C7_icdf_raises_prob_cdf_clamp {xx yy : List ℚ} {mnO mxO : Option ℚ}
    {s : TransInterped} (hok : mkTransInterped xx yy mnO mxO = .ok s)
    (hv : validInput xx yy)
    (hlt : resolvedMin xx mnO < resolvedMax xx mxO) :
    (∀ t : ℚ, t < 0 ∨ 1 < t → s.inverse_cumulative_distribution.eval t = none) ∧
    (∀ t, t < s.xx.headD 0 → s.prob t = 0 ∧ s.cdf t = 0) ∧
    (∀ t, s.xx.getLastD 0 < t → s.prob t = 0 ∧ s.cdf t = 1) := by
  obtain ⟨hguard, rfl⟩ := mkTransInterped_ok hok
  have p := builtPack hv (resolvedMin_ge xx mnO) (resolvedMax_le xx mxO) hlt
  refine ⟨?_, ?_, ?_⟩
  · intro t ht
    rw [built_icdf, p.cfix]
    rcases ht with ht | ht
    · refine interpRaise_eval_of_lt_head p.clen (normCumArr_ne_nil xx yy _ _) ?_
      rw [normCumArr_headD]
      exact ht
    · refine interpRaise_eval_of_gt_last p.clen (normCumArr_ne_nil xx yy _ _) p.cchainLe ?_
      rw [p.clast]
      exact ht
  · intro t ht
    rw [built_xx] at ht
    constructor
    · rw [built_prob_eval]
      exact interp_eval_of_lt_head p.nlen.symm p.gne ht
    · rw [built_cdf_eval, p.cfix]
      exact interp_eval_of_lt_head p.clen.symm p.gne ht
  · intro t ht
    rw [built_xx] at ht
    constructor
    · rw [built_prob_eval]
      exact interp_eval_of_gt_last p.nlen.symm p.gne p.gchainLe ht
    · rw [built_cdf_eval, p.cfix]
      exact interp_eval_of_gt_last p.clen.symm p.gne p.gchainLe ht

/-- Witness for C7: the quantile queries −0.1 and 1.1 raise, while
`prob`/`cdf` return the clamped values at the out-of-range inputs −1 and
5. -/
theorem C7_witness :
    exState.inverse_cumulative_distribution.eval (-1/10) = none ∧
    exState.inverse_cumulative_distribution.eval (11/10) = none ∧
    (exState.prob (-1) = 0 ∧ exState.cdf (-1) = 0) ∧
    (exState.prob 5 = 0 ∧ exState.cdf 5 = 1) := by
  have h := C7_icdf_raises_prob_cdf_clamp exState_ok (by decide) (by decide)
  refine ⟨h.1 (-1/10) (Or.inl (by norm_num)), h.1 (11/10) (Or.inr (by norm_num)),
    h.2.1 (-1) (by with_unfolding_all decide), h.2.2 5 (by with_unfolding_all decide)⟩

/-- C2: after a construction from valid input, `rescale(0)` returns a value
whose unnormalized cumulative integral equals `Normalizer_calc(trans_min)`
(indeed `rescale(0) = trans_min`), `rescale(1)` one whose integral equals
`Normalizer_calc(trans_max)`, and `rescale` is monotonically non-decreasing
on `[0, 1]`. -/
theorem C2_rescale_edges_mono {xx yy : List ℚ} {mnO mxO : Option ℚ}
    {s : TransInterped} (hok : mkTransInterped xx yy mnO mxO = .ok s)
    (hv : validInput xx yy)
    (hlt : resolvedMin xx mnO < resolvedMax xx mxO) :
    s.Normalizer_calc.eval (s.rescale 0) = s.Normalizer_calc.eval s.trans_min ∧
    s.Normalizer_calc.eval (s.rescale 1) = s.Normalizer_calc.eval s.trans_max ∧
    (∀ u v : ℚ, 0 ≤ u → u ≤ v → v ≤ 1 → s.rescale u ≤ s.rescale v) := by
  obtain ⟨hguard, rfl⟩ := mkTransInterped_ok hok
  have p := builtPack hv (resolvedMin_ge xx mnO) (resolvedMax_le xx mxO) hlt
  have hNhead : (builtState xx yy (resolvedMin xx mnO) (resolvedMax xx mxO)).Normalizer_calc.eval
      (resolvedMin xx mnO) = 0 := by
    have h := interp_eval_at_head 0 0 p.nnlen.symm p.gne p.gchain
    rw [p.ghead, rawCumArr_headD] at h
    rw [built_norm]
    exact h
  have hNlast : (builtState xx yy (resolvedMin xx mnO) (resolvedMax xx mxO)).Normalizer_calc.eval
      (resolvedMax xx mxO) = totalArea xx yy (resolvedMin xx mnO) (resolvedMax xx mxO) := by
    have h := interp_eval_at_last 0 0 p.nnlen.symm p.gne p.gchain
    rw [p.glast, rawCumArr_getLastD] at h
    rw [built_norm]
    exact h
  have hInvHead : (builtState xx yy (resolvedMin xx mnO) (resolvedMax xx mxO)).Inv_Normalizer_calc.eval
      0 = resolvedMin xx mnO := by
    have h := interp_eval_at_head 0 0 p.nnlen
      (rawCumArr_ne_nil xx yy _ _) p.nnchain
    rw [rawCumArr_headD] at h
    rw [built_inv, h, p.ghead]
  have hInvLast : (builtState xx yy (resolvedMin xx mnO) (resolvedMax xx mxO)).Inv_Normalizer_calc.eval
      (totalArea xx yy (resolvedMin xx mnO) (resolvedMax xx mxO)) = resolvedMax xx mxO := by
    have h := interp_eval_at_last 0 0 p.nnlen
      (rawCumArr_ne_nil xx yy _ _) p.nnchain
    rw [rawCumArr_getLastD] at h
    rw [built_inv, h, p.glast]
  have hr0 : (builtState xx yy (resolvedMin xx mnO) (resolvedMax xx mxO)).rescale 0 =
      resolvedMin xx mnO := by
    simp only [TransInterped.rescale, built_trans_min, built_trans_max,
      hNhead, hNlast]
    rw [show (0:ℚ) + (totalArea xx yy (resolvedMin xx mnO) (resolvedMax xx mxO) - 0) * 0 = 0
      by ring]
    exact hInvHead
  have hr1 : (builtState xx yy (resolvedMin xx mnO) (resolvedMax xx mxO)).rescale 1 =
      resolvedMax xx mxO := by
    simp only [TransInterped.rescale, built_trans_min, built_trans_max,
      hNhead, hNlast]
    rw [show (0:ℚ) + (totalArea xx yy (resolvedMin xx mnO) (resolvedMax xx mxO) - 0) * 1 =
      totalArea xx yy (resolvedMin xx mnO) (resolvedMax xx mxO) by ring]
    exact hInvLast
  refine ⟨?_, ?_, ?_⟩
  · rw [hr0, built_trans_min]
  · rw [hr1, built_trans_max]
  · intro u v h0 huv h1
    simp only [TransInterped.rescale, built_trans_min, built_trans_max,
      hNhead, hNlast]
    have harg : ∀ w : ℚ, (0:ℚ) +
        (totalArea xx yy (resolvedMin xx mnO) (resolvedMax xx mxO) - 0) * w =
        totalArea xx yy (resolvedMin xx mnO) (resolvedMax xx mxO) * w :=
      fun w => by ring
    rw [harg u, harg v, built_inv]
    refine interp_eval_mono_within p.nnlen (rawCumArr_ne_nil xx yy _ _)
      p.nnchain p.gchainLe ?_ ?_ ?_
    · rw [rawCumArr_headD]
      exact mul_nonneg (le_of_lt p.tpos) h0
    · exact mul_le_mul_of_nonneg_left huv (le_of_lt p.tpos)
    · rw [rawCumArr_getLastD]
      have := mul_le_mul_of_nonneg_left h1 (le_of_lt p.tpos)
      rw [mul_one] at this
      exact this

/-- Witness for C2: on the concrete scenario, the unnormalized cumulative
mass at `rescale(0)`/`rescale(1)` matches the mass at the frozen bounds,
and two rescale outputs inside the unit interval are ordered. -/
theorem C2_witness :
    exState.Normalizer_calc.eval (exState.rescale 0) =
      exState.Normalizer_calc.eval exState.trans_min ∧
    exState.Normalizer_calc.eval (exState.rescale 1) =
      exState.Normalizer_calc.eval exState.trans_max ∧
    exState.rescale (1/4) ≤ exState.rescale (3/4) := by
  have h := C2_rescale_edges_mono exState_ok (by decide) (by decide)
  exact ⟨h.1, h.2.1, h.2.2 (1/4) (3/4) (by norm_num) (by norm_num) (by norm_num)⟩

end TBilby
